import Mathlib

/-!
Verification development for the theseus-lib sequence-to-graph aligner.

Each definition is a shallow embedding of the corresponding C++ entity, keeping
the source's names where Lean allows it.  Machine integers (`int`, `int32_t`,
`int64_t`) are modelled as `Int`; all quantities handled by the claims stay far
from the 32/64-bit overflow boundaries, so no wrap-around modelling is needed.
Fields the C++ code leaves uninitialized (e.g. the seed `Cell`'s `prev_pos` and
`from_matrix` in `TheseusAlignerImpl::new_alignment`) are modelled as explicit
parameters so that theorems can quantify over the indeterminate values.

Where the repository contains several out-of-sync variants of the same class,
the embedding follows the definition actually referenced by the aligner
implementation `theseus_aligner_impl.cpp` (this is noted at each such point).
-/

namespace Theseus

/-- Edit-operation tag stored in a cell (`Cell::edit_t`, `cell.h` lines 70-74;
the `edit_op` field itself is used throughout `theseus_aligner_impl.cpp`). -/
inductive EditT where
  | noneE
  | m
  | ins
  | del
deriving DecidableEq, Repr

/-- DP-matrix tag (`Cell::Matrix`, `cell.h` lines 76-86). -/
inductive MatrixT where
  | noneM
  | m
  | mJumps
  | i
  | iJumps
  | d
  | i2
  | i2Jumps
  | d2
deriving DecidableEq, Repr

/-- One DP cell: `struct Cell` of `cell.h` (fields `prev_pos`, `vertex_id`,
`offset`, `diag`, `from_matrix`) together with the `edit_op` field that
`theseus_aligner_impl.cpp` reads and writes (`new_cell.edit_op = ...`,
`curr_cell.edit_op == Cell::edit_t::Ins`); the checked-in `cell.h` variant
omits that field but the implementation requires it. -/
structure Cell where
  prevPos : Int
  vertexId : Int
  offset : Int
  diag : Int
  fromMatrix : MatrixT
  editOp : EditT
deriving DecidableEq, Repr

/-- Gap-penalty family (`Penalties::Type`, `penalties.h` lines 21-25). -/
inductive PenaltyType where
  | linear
  | affine
  | dualAffine
deriving DecidableEq, Repr

/-- User-facing penalties (`class Penalties`, `penalties.h` lines 162-172:
protected members `type_`, `match_`, `mismatch_`, `gapo_`, `gape_`, `gapo2_`,
`gape2_`). -/
structure Penalties where
  type_ : PenaltyType
  match_ : Int
  mismatch_ : Int
  gapo_ : Int
  gape_ : Int
  gapo2_ : Int
  gape2_ : Int
deriving DecidableEq, Repr

/-- Linear-gap constructor (`penalties.cpp` lines 35-42). -/
def Penalties.mkLinear (m mi ge : Int) : Penalties :=
  ⟨.linear, m, mi, 0, ge, 0, 0⟩

/-- Affine-gap constructor (`penalties.cpp` lines 45-52). -/
def Penalties.mkAffine (m mi go ge : Int) : Penalties :=
  ⟨.affine, m, mi, go, ge, 0, 0⟩

/-- Dual-affine constructor (`penalties.cpp` lines 55-67). -/
def Penalties.mkDualAffine (m mi go ge go2 ge2 : Int) : Penalties :=
  ⟨.dualAffine, m, mi, go, ge, go2, ge2⟩

/-- `Penalties::match()` (`penalties.h` line 80).  Named `matchP` because
`match` is a Lean keyword. -/
def Penalties.matchP (p : Penalties) : Int := p.match_

/-- `Penalties::mism()` (`penalties.h` line 87). -/
def Penalties.mism (p : Penalties) : Int := p.mismatch_

/-- `Penalties::gapo()` (`penalties.h` line 96). -/
def Penalties.gapo (p : Penalties) : Int := p.gapo_

/-- `Penalties::gape()` (`penalties.h` line 103). -/
def Penalties.gape (p : Penalties) : Int := p.gape_

/-- `Penalties::gapo2()` (`penalties.h` line 112). -/
def Penalties.gapo2 (p : Penalties) : Int := p.gapo2_

/-- `Penalties::gape2()` exactly as written at `penalties.h` line 121:
`penalty_t gape2() const { return gape_; }` — it returns the member `gape_`,
not `gape2_`. -/
def Penalties.gape2 (p : Penalties) : Int := p.gape_

/-- Fold state of `Alignment::compute_affine_gap_score` (`alignment.h` lines
65-66): the running `score` and the `insertion_open` / `deletion_open`
flags. -/
structure ScoreSt where
  score : Int
  insertionOpen : Bool
  deletionOpen : Bool
deriving DecidableEq, Repr

/-- One iteration of the loop of `Alignment::compute_affine_gap_score`
(`alignment.h` lines 67-98).  Characters other than `X`, `I`, `D`, `M` leave
the state unchanged, as in the source (no final `else`). -/
def scoreStep (p : Penalties) (st : ScoreSt) (op : Char) : ScoreSt :=
  if op = 'X' then
    { score := st.score + p.mism, insertionOpen := false, deletionOpen := false }
  else if op = 'I' then
    if !st.insertionOpen then
      { score := st.score + p.gapo + p.gape, insertionOpen := true, deletionOpen := false }
    else
      { score := st.score + p.gape, insertionOpen := st.insertionOpen, deletionOpen := false }
  else if op = 'D' then
    if !st.deletionOpen then
      { score := st.score + p.gapo + p.gape, insertionOpen := false, deletionOpen := true }
    else
      { score := st.score + p.gape, insertionOpen := false, deletionOpen := st.deletionOpen }
  else if op = 'M' then
    { score := st.score + p.matchP, insertionOpen := false, deletionOpen := false }
  else st

/-- `Alignment::compute_affine_gap_score(Penalties &user_penalties)`
(`alignment.h` lines 64-100): fold `scoreStep` over the `edit_op` vector from
score 0 with both gap flags closed.  (The member function
`Penalties::compute_affine_gap_score` of `penalties.h` lines 124-160 is the
same fold.) -/
def computeAffineGapScore (p : Penalties) (editOp : List Char) : Int :=
  (editOp.foldl (scoreStep p) ⟨0, false, false⟩).score

/-- Internal (Eizenga-transformed) penalties: the members `_match`,
`_mismatch`, `_gapo`, `_gape` of `class InternalPenalties` in
`internal_penalties.h` (the constructor never writes `_gapo2` / `_gape2` —
"TODO: Control for dual affine penalties" — so they are not modelled).
The stale translation unit `internal_penalties.cpp` belongs to an older
variant of the class (it derives from `Penalties` and performs no checks) and
does not compile against this header; the header definition is the one the
aligner implementation includes. -/
structure InternalPenalties where
  matchI : Int
  mismatchI : Int
  gapoI : Int
  gapeI : Int
deriving DecidableEq, Repr

/-- `InternalPenalties::InternalPenalties(Penalties)` from
`internal_penalties.h`: first the Eizenga transform is applied (when
`match ≠ 0`: `mism' = 2·mism − 2·match`, `gapo' = 2·gapo`,
`gape' = 2·gape − match`, `match' = 0`; otherwise the penalties are copied),
then the four invariants are checked, each violation throwing
`std::invalid_argument` (the spec's `InvalidPenalties` error kind), modelled
as `Except.error` carrying the message. -/
def mkInternalPenalties (p : Penalties) : Except String InternalPenalties :=
  let transformed : InternalPenalties :=
    if p.matchP ≠ 0 then
      ⟨0, 2 * p.mism - 2 * p.matchP, 2 * p.gapo, 2 * p.gape - p.matchP⟩
    else
      ⟨p.matchP, p.mism, p.gapo, p.gape⟩
  if p.matchP > p.mism then
    .error "The match penalty must be less than the mismatch penalty"
  else if p.matchP > p.gapo then
    .error "The match penalty must be less than or equal to the gap open penalty."
  else if p.matchP > p.gape then
    .error "The match penalty must be less than or equal to the gap extend penalty."
  else if p.gapo < p.gape then
    .error "The gap open penalty must be greater than or equal to the gap extension penalty."
  else
    .ok transformed

/-- C10.  The dual-affine constructor stores its sixth argument in `gape2_`
(`penalties.cpp` lines 55-67), but the public accessor `gape2()` returns the
member `gape_` (`penalties.h` line 121), contradicting its own doc comment
("Get the second gap extension penalty…").  At the failing input
`Penalties(0, 2, 3, 1, 5, 7)` the accessor yields the first gap-extension
penalty `1`, not the stored `7`. -/
theorem gape2_accessor_returns_gape : (Penalties.mkDualAffine 0 2 3 1 5 7).gape2 = 1 ∧
    (Penalties.mkDualAffine 0 2 3 1 5 7).gape2 ≠ 7 ∧
    (Penalties.mkDualAffine 0 2 3 1 5 7).gape2_ = 7 := by
  refine ⟨rfl, by decide, rfl⟩

/-- C4.  Constructing the internal penalty model fails (with the
`InvalidPenalties` / `std::invalid_argument` error) iff one of the invariants
`match ≤ mism`, `match ≤ gapo`, `match ≤ gape`, `gapo ≥ gape` is violated, and
on success the stored internal penalties are the Eizenga normalization of the
user penalties (identity when `match = 0`). -/
theorem mkInternalPenalties_eq (p : Penalties) : mkInternalPenalties p =
    (if p.matchP > p.mism then
      .error "The match penalty must be less than the mismatch penalty"
    else if p.matchP > p.gapo then
      .error "The match penalty must be less than or equal to the gap open penalty."
    else if p.matchP > p.gape then
      .error "The match penalty must be less than or equal to the gap extend penalty."
    else if p.gapo < p.gape then
      .error "The gap open penalty must be greater than or equal to the gap extension penalty."
    else
      .ok (if p.matchP ≠ 0 then
        ⟨0, 2 * p.mism - 2 * p.matchP, 2 * p.gapo, 2 * p.gape - p.matchP⟩
      else
        ⟨p.matchP, p.mism, p.gapo, p.gape⟩)) := rfl

/-- C4.  Constructing the internal penalty model fails (with the
`InvalidPenalties` / `std::invalid_argument` error) iff one of the invariants
`match ≤ mism`, `match ≤ gapo`, `match ≤ gape`, `gapo ≥ gape` is violated, and
on success the stored internal penalties are the Eizenga normalization of the
user penalties (identity when `match = 0`). -/
theorem internalPenalties_ok_iff (p : Penalties) :
    ((∃ ip, mkInternalPenalties p = .ok ip) ↔
      p.matchP ≤ p.mism ∧ p.matchP ≤ p.gapo ∧ p.matchP ≤ p.gape ∧ p.gape ≤ p.gapo) ∧
    (∀ ip, mkInternalPenalties p = .ok ip →
      (p.matchP ≠ 0 →
        ip = ⟨0, 2 * p.mism - 2 * p.matchP, 2 * p.gapo, 2 * p.gape - p.matchP⟩) ∧
      (p.matchP = 0 → ip = ⟨p.matchP, p.mism, p.gapo, p.gape⟩)) := by
  rw [mkInternalPenalties_eq]
  constructor
  · constructor
    · rintro ⟨ip, hip⟩
      split_ifs at hip <;> first
        | exact Except.noConfusion hip
        | omega
    · intro h
      refine ⟨if p.matchP ≠ 0 then ⟨0, 2 * p.mism - 2 * p.matchP, 2 * p.gapo,
        2 * p.gape - p.matchP⟩ else ⟨p.matchP, p.mism, p.gapo, p.gape⟩, ?_⟩
      split_ifs <;> first
        | rfl
        | (exfalso; omega)
  · intro ip hip
    split_ifs at hip with h1 h2 h3 h4 h5 <;>
      first
        | exact Except.noConfusion hip
        | exact ⟨fun _ => (Except.ok.inj hip).symm, fun hm0 => absurd hm0 (by assumption)⟩
        | exact ⟨fun hm => absurd hm (by assumption), fun _ => (Except.ok.inj hip).symm⟩

/-- Closed witness for `internalPenalties_ok_iff` at the concrete input
`Penalties(0, 2, 3, 1)` (the test suite's penalties): construction succeeds
and, since `match = 0`, the internal penalties equal the user penalties. -/
theorem internalPenalties_ok_iff_witness :
    mkInternalPenalties (Penalties.mkAffine 0 2 3 1) = .ok ⟨0, 2, 3, 1⟩ ∧
    ((Penalties.mkAffine 0 2 3 1).matchP = 0 →
      (⟨0, 2, 3, 1⟩ : InternalPenalties) = ⟨(Penalties.mkAffine 0 2 3 1).matchP,
        (Penalties.mkAffine 0 2 3 1).mism, (Penalties.mkAffine 0 2 3 1).gapo,
        (Penalties.mkAffine 0 2 3 1).gape⟩) :=
  ⟨rfl, ((internalPenalties_ok_iff (Penalties.mkAffine 0 2 3 1)).2 ⟨0, 2, 3, 1⟩ rfl).2⟩

/-- Run-length decomposition of a CIGAR: the maximal runs of consecutive
identical operations, in order.  (Spec-side definition used to state C5; any
transition between distinct operations ends a run.) -/
def runs : List Char → List (Char × Nat)
  | [] => []
  | c :: rest =>
    match runs rest with
    | [] => [(c, 1)]
    | (d, k) :: rs => if c = d then (c, k + 1) :: rs else (c, 1) :: (d, k) :: rs

/-- Cost of one maximal run under the claimed formula: `match` per `M`, `mism`
per `X`, and `(gapo + gape) + (k − 1)·gape` for a maximal run of `k` identical
gap operations (`I` or `D`). -/
def runCost (p : Penalties) (r : Char × Nat) : Int :=
  if r.1 = 'M' then r.2 * p.matchP
  else if r.1 = 'X' then r.2 * p.mism
  else if r.1 = 'I' ∨ r.1 = 'D' then p.gapo + p.gape + ((r.2 : Int) - 1) * p.gape
  else 0

/-- Cost contributed by one operation given the preceding operation (helper for
the C5 proof): a gap operation pays `gape` when it extends a run of the same
gap operation and `gapo + gape` when it opens a new one. -/
def opCost (p : Penalties) (prev : Option Char) (c : Char) : Int :=
  if c = 'X' then p.mism
  else if c = 'I' then (if prev = some 'I' then p.gape else p.gapo + p.gape)
  else if c = 'D' then (if prev = some 'D' then p.gape else p.gapo + p.gape)
  else if c = 'M' then p.matchP
  else 0

/-- Sum of `opCost` along a list, threading the previous operation. -/
def pairCost (p : Penalties) : Option Char → List Char → Int
  | _, [] => 0
  | prev, c :: rest => opCost p prev c + pairCost p (some c) rest

/-- Cost a run opening saves when the previous context already ended with the
same gap operation (helper for the C5 proof). -/
def gapAdj (p : Penalties) (prev : Option Char) : List Char → Int
  | [] => 0
  | c :: _ => if prev = some c ∧ (c = 'I' ∨ c = 'D') then -p.gapo else 0

theorem scoreStep_eq_opCost (p : Penalties) (s : Int) (prev : Option Char) (c : Char)
    (hc : c = 'M' ∨ c = 'X' ∨ c = 'I' ∨ c = 'D') :
    scoreStep p ⟨s, decide (prev = some 'I'), decide (prev = some 'D')⟩ c =
      ⟨s + opCost p prev c, decide (some c = some 'I'), decide (some c = some 'D')⟩ := by
  rcases hc with rfl | rfl | rfl | rfl <;>
    by_cases hI : prev = some 'I' <;>
      by_cases hD : prev = some 'D' <;>
        simp_all [scoreStep, opCost] <;>
          omega

theorem foldl_scoreStep_eq_pairCost (p : Penalties) :
    ∀ (ops : List Char) (s : Int) (prev : Option Char),
    (∀ c ∈ ops, c = 'M' ∨ c = 'X' ∨ c = 'I' ∨ c = 'D') →
    (ops.foldl (scoreStep p) ⟨s, decide (prev = some 'I'), decide (prev = some 'D')⟩).score =
      s + pairCost p prev ops
  | [], s, prev, _ => by simp [pairCost]
  | c :: rest, s, prev, h => by
    have hc := h c (List.mem_cons_self c rest)
    have hrest : ∀ x ∈ rest, x = 'M' ∨ x = 'X' ∨ x = 'I' ∨ x = 'D' :=
      fun x hx => h x (List.mem_cons_of_mem c hx)
    rw [List.foldl_cons, scoreStep_eq_opCost p s prev c hc,
      foldl_scoreStep_eq_pairCost p rest (s + opCost p prev c) (some c) hrest, pairCost]
    ring

theorem runs_cons_exists (d : Char) (rest : List Char) :
    ∃ k rs, runs (d :: rest) = (d, k + 1) :: rs := by
  have hrw : runs (d :: rest) = (match runs rest with
    | [] => [(d, 1)]
    | (e, k) :: rs => if d = e then (d, k + 1) :: rs else (d, 1) :: (e, k) :: rs) := rfl
  cases hr : runs rest with
  | nil => exact ⟨0, [], by rw [hrw, hr]⟩
  | cons pr rs' =>
    obtain ⟨e, k'⟩ := pr
    by_cases hde : d = e
    · subst hde
      refine ⟨k', rs', ?_⟩
      rw [hrw, hr]
      simp
    · refine ⟨0, (e, k') :: rs', ?_⟩
      rw [hrw, hr]
      simp [hde]

theorem runCost_extend (p : Penalties) (c : Char) (k : Nat) :
    runCost p (c, k + 1) = opCost p (some c) c + runCost p (c, k) := by
  by_cases hM : c = 'M'
  · subst hM; simp [runCost, opCost]; ring
  · by_cases hX : c = 'X'
    · subst hX; simp [runCost, opCost]; ring
    · by_cases hI : c = 'I'
      · subst hI; simp [runCost, opCost]; ring
      · by_cases hD : c = 'D'
        · subst hD; simp [runCost, opCost, hM]; ring
        · simp [runCost, opCost, hM, hX, hI, hD]

/-- Cost of a gap/match/mismatch operation that opens a new run. -/
def openCost (p : Penalties) (c : Char) : Int :=
  if c = 'X' then p.mism
  else if c = 'I' then p.gapo + p.gape
  else if c = 'D' then p.gapo + p.gape
  else if c = 'M' then p.matchP
  else 0

/-- Cost of an operation that extends the current run. -/
def extendCost (p : Penalties) (c : Char) : Int :=
  if c = 'X' then p.mism
  else if c = 'I' then p.gape
  else if c = 'D' then p.gape
  else if c = 'M' then p.matchP
  else 0

theorem opCost_self (p : Penalties) (c : Char) : opCost p (some c) c = extendCost p c := by
  unfold opCost extendCost
  split_ifs <;> simp_all

theorem opCost_eq_open_extend (p : Penalties) (prev : Option Char) (c : Char) :
    opCost p prev c =
      if prev = some c ∧ (c = 'I' ∨ c = 'D') then extendCost p c else openCost p c := by
  unfold opCost extendCost openCost
  split_ifs <;> simp_all

theorem extendCost_eq_openCost_sub (p : Penalties) (c : Char) (hc : c = 'I' ∨ c = 'D') :
    extendCost p c = openCost p c - p.gapo := by
  rcases hc with rfl | rfl <;> simp [extendCost, openCost]

theorem extendCost_eq_openCost (p : Penalties) (c : Char) (hI : c ≠ 'I') (hD : c ≠ 'D') :
    extendCost p c = openCost p c := by
  unfold extendCost openCost
  split_ifs <;> simp_all

theorem runCost_one (p : Penalties) (c : Char) : runCost p (c, 1) = openCost p c := by
  unfold runCost openCost
  split_ifs <;> simp_all

theorem runsSum_cons (p : Penalties) (c : Char) (rest : List Char) :
    ((runs (c :: rest)).map (runCost p)).sum =
      (if rest.head? = some c then extendCost p c else openCost p c) +
        ((runs rest).map (runCost p)).sum := by
  cases rest with
  | nil =>
    have h1 : runs [c] = [(c, 1)] := rfl
    simp [h1, runs, runCost_one]
  | cons d rest' =>
    obtain ⟨k, rs, hk⟩ := runs_cons_exists d rest'
    have hrw : runs (c :: d :: rest') = (match runs (d :: rest') with
      | [] => [(c, 1)]
      | (e, k) :: rs => if c = e then (c, k + 1) :: rs else (c, 1) :: (e, k) :: rs) := rfl
    rw [hrw, hk]
    by_cases hcd : c = d
    · subst hcd
      simp only [eq_self_iff_true, if_true, List.head?_cons, Option.some.injEq,
        List.map_cons, List.sum_cons, hk]
      rw [show k + 1 + 1 = (k + 1) + 1 from rfl, runCost_extend, opCost_self]
      ring
    · simp only [if_neg hcd, List.head?_cons, Option.some.injEq,
        if_neg (show ¬d = c from fun h => hcd h.symm), hk,
        List.map_cons, List.sum_cons, runCost_one]
      try ring

theorem pairCost_eq_runsSum (p : Penalties) :
    ∀ (ops : List Char) (prev : Option Char),
    (∀ c ∈ ops, c = 'M' ∨ c = 'X' ∨ c = 'I' ∨ c = 'D') →
    pairCost p prev ops = ((runs ops).map (runCost p)).sum + gapAdj p prev ops
  | [], prev, _ => by simp [pairCost, runs, gapAdj]
  | c :: rest, prev, h => by
    have hrest : ∀ x ∈ rest, x = 'M' ∨ x = 'X' ∨ x = 'I' ∨ x = 'D' :=
      fun x hx => h x (List.mem_cons_of_mem c hx)
    rw [pairCost, pairCost_eq_runsSum p rest (some c) hrest, runsSum_cons,
      opCost_eq_open_extend]
    cases rest with
    | nil =>
      rw [if_neg (show ¬(List.head? ([] : List Char) = some c) from by simp)]
      by_cases hp : prev = some c ∧ (c = 'I' ∨ c = 'D')
      · have hext := extendCost_eq_openCost_sub p c hp.2
        rw [if_pos hp]
        simp only [gapAdj, if_pos hp]
        rw [hext]
        ring
      · rw [if_neg hp]
        simp only [gapAdj, if_neg hp]
        ring
    | cons d rest' =>
      by_cases hcd : d = c
      · subst hcd
        rw [if_pos (show (d :: rest').head? = some d from rfl)]
        by_cases hd : d = 'I' ∨ d = 'D'
        · have hext := extendCost_eq_openCost_sub p d hd
          have hgr : gapAdj p (some d) (d :: rest') = -p.gapo := by
            simp [gapAdj, hd]
          rw [hgr]
          by_cases hpe : prev = some d
          · rw [if_pos (⟨hpe, hd⟩ : prev = some d ∧ (d = 'I' ∨ d = 'D'))]
            simp only [gapAdj,
              if_pos (⟨hpe, hd⟩ : prev = some d ∧ (d = 'I' ∨ d = 'D'))]
            ring
          · rw [if_neg (show ¬(prev = some d ∧ (d = 'I' ∨ d = 'D')) from
              fun hc => hpe hc.1)]
            simp only [gapAdj]
            rw [if_neg (show ¬(prev = some d ∧ (d = 'I' ∨ d = 'D')) from
              fun hc => hpe hc.1), hext]
            ring
        · have hext := extendCost_eq_openCost p d (fun h1 => hd (Or.inl h1))
            (fun h1 => hd (Or.inr h1))
          have hgr : gapAdj p (some d) (d :: rest') = 0 := by
            simp [gapAdj, hd]
          rw [hgr, if_neg (show ¬(prev = some d ∧ (d = 'I' ∨ d = 'D')) from
            fun hc => hd hc.2)]
          simp only [gapAdj]
          rw [if_neg (show ¬(prev = some d ∧ (d = 'I' ∨ d = 'D')) from
            fun hc => hd hc.2), hext]
          ring
      · rw [if_neg (show ¬((d :: rest').head? = some c) from
          fun h => hcd (Option.some.inj h))]
        have hgr : gapAdj p (some c) (d :: rest') = 0 := by
          simp [gapAdj, show c ≠ d from fun h1 => hcd h1.symm]
        rw [hgr]
        by_cases hp : prev = some c ∧ (c = 'I' ∨ c = 'D')
        · have hext := extendCost_eq_openCost_sub p c hp.2
          rw [if_pos hp]
          simp only [gapAdj, if_pos hp]
          rw [hext]
          ring
        · rw [if_neg hp]
          simp only [gapAdj, if_neg hp]
          ring

/-- C5.  For every CIGAR over the alphabet `{M, X, I, D}`, the scorer
`Alignment::compute_affine_gap_score` returns the sum of `match` per `M`,
`mism` per `X`, and, for each maximal run of `k` consecutive identical gap
operations (any transition among M, X, I, D ends a run),
`(gapo + gape) + (k − 1)·gape`. -/
theorem computeAffineGapScore_eq_runSum (p : Penalties) (editOp : List Char)
    (h : ∀ c ∈ editOp, c = 'M' ∨ c = 'X' ∨ c = 'I' ∨ c = 'D') :
    computeAffineGapScore p editOp = ((runs editOp).map (runCost p)).sum := by
  have h0 : (⟨0, false, false⟩ : ScoreSt) =
      ⟨0, decide ((none : Option Char) = some 'I'),
        decide ((none : Option Char) = some 'D')⟩ := rfl
  rw [computeAffineGapScore, h0, foldl_scoreStep_eq_pairCost p editOp 0 none h,
    pairCost_eq_runsSum p editOp none h]
  cases editOp <;> simp [gapAdj]

/-- Closed witness for `computeAffineGapScore_eq_runSum` at a concrete CIGAR
containing runs of every kind, with the test-suite penalties `(0, 2, 3, 1)`. -/
theorem computeAffineGapScore_eq_runSum_witness :
    (∀ c ∈ ['M', 'X', 'I', 'I', 'D', 'M', 'I'],
      c = 'M' ∨ c = 'X' ∨ c = 'I' ∨ c = 'D') ∧
    computeAffineGapScore (Penalties.mkAffine 0 2 3 1) ['M', 'X', 'I', 'I', 'D', 'M', 'I'] =
      ((runs ['M', 'X', 'I', 'I', 'D', 'M', 'I']).map
        (runCost (Penalties.mkAffine 0 2 3 1))).sum :=
  ⟨by decide, computeAffineGapScore_eq_runSum (Penalties.mkAffine 0 2 3 1)
    ['M', 'X', 'I', 'I', 'D', 'M', 'I'] (by decide)⟩

/-- Invalid-diagonal segment (`VerticesData::Segment`, `vertices_data.h`
lines 51-54); both bounds inclusive. -/
structure Segment where
  start_d : Int
  end_d : Int
deriving DecidableEq, Repr

/-- `VerticesData::InvalidData` (`vertices_data.h` lines 56-62). -/
structure InvalidData where
  seg : Segment
  rem_up : Int
  rem_down : Int
deriving DecidableEq, Repr

/-- Membership of a diagonal in a segment (`valid_diagonal`'s test
`start_d ≤ diag ∧ diag ≤ end_d`, `vertices_data.h` lines 408-413). -/
def inSeg (s : Segment) (d : Int) : Prop := s.start_d ≤ d ∧ d ≤ s.end_d

instance (s : Segment) (d : Int) : Decidable (inSeg s d) := by
  unfold inSeg
  infer_instance

/-- Two invalid records cover disjoint sets of diagonals. -/
def segDisjoint (a b : InvalidData) : Prop := ∀ d : Int, ¬(inSeg a.seg d ∧ inSeg b.seg d)

/-- Body of the loop of `VerticesData::expand_invalid_vector`
(`vertices_data.h` lines 254-266): decrement both counters; a counter that
reaches exactly 0 is reset to the default and that side of the segment grows
by one diagonal. -/
def expandOne (defaultRemUp defaultRemDown : Int) (iv : InvalidData) : InvalidData :=
  let rd := iv.rem_down - 1
  let ru := iv.rem_up - 1
  { seg := { start_d := if rd = 0 then iv.seg.start_d - 1 else iv.seg.start_d,
             end_d := if ru = 0 then iv.seg.end_d + 1 else iv.seg.end_d },
    rem_up := if ru = 0 then defaultRemUp else ru,
    rem_down := if rd = 0 then defaultRemDown else rd }

/-- `VerticesData::expand_invalid_vector` (`vertices_data.h` lines 250-267). -/
def expand_invalid_vector (invalidV : List InvalidData)
    (defaultRemUp defaultRemDown : Int) : List InvalidData :=
  invalidV.map (expandOne defaultRemUp defaultRemDown)

/-- Merge of the accumulated record `k` with the next record `l` inside
`VerticesData::compact_invalid_vector` (`vertices_data.h` lines 208-235).
Statement order is preserved: `end_d` is assigned the max first, so the later
comparison `invalid_v[l].seg.end_d > invalid_v[k].seg.end_d` reads the updated
`end_d` (and is therefore never true). -/
def mergeInvalid (defaultRemUp defaultRemDown : Int) (k l : InvalidData) : InvalidData :=
  let newEnd := max l.seg.end_d k.seg.end_d
  let newRemDown := min k.rem_down
    (l.rem_down + (l.seg.start_d - k.seg.start_d) * defaultRemDown)
  let newRemUp :=
    if l.seg.end_d > newEnd then
      min l.rem_up (k.rem_up + (l.seg.end_d - newEnd) * defaultRemUp)
    else
      min k.rem_up (l.rem_up + (newEnd - l.seg.end_d) * defaultRemUp)
  ⟨⟨k.seg.start_d, newEnd⟩, newRemUp, newRemDown⟩

/-- The index-based merge loop of `compact_invalid_vector` (`vertices_data.h`
lines 205-241) in functional form: `cur` is the record accumulated at index
`k`; when `cur.end_d + 1 ≥ next.start_d` the next record is merged into `cur`,
otherwise `cur` is emitted and the next record starts a new accumulation.  The
final `resize(k + 1)` keeps exactly the emitted records plus the last
accumulated one. -/
def compactLoop (defUp defDown : Int) : InvalidData → List InvalidData → List InvalidData
  | cur, [] => [cur]
  | cur, l :: rest =>
    if cur.seg.end_d + 1 ≥ l.seg.start_d then
      compactLoop defUp defDown (mergeInvalid defUp defDown cur l) rest
    else
      cur :: compactLoop defUp defDown l rest

/-- The sort of `compact_invalid_vector` (`vertices_data.h` lines 198-202):
`std::sort` with comparator `s1.start_d < s2.start_d`.  `std::sort` is
unstable, so the C++ result is some permutation sorted by `start_d`; the
embedding fixes insertion sort as one valid implementation (the disjointness
proof below uses only sortedness by `start_d`). -/
def sortInvalid (l : List InvalidData) : List InvalidData :=
  List.insertionSort (fun a b => a.seg.start_d ≤ b.seg.start_d) l

/-- `VerticesData::compact_invalid_vector` (`vertices_data.h` lines 189-242):
empty vectors are returned unchanged, otherwise sort by `start_d` and run the
merge loop. -/
def compact_invalid_vector (invalidV : List InvalidData)
    (defaultRemUp defaultRemDown : Int) : List InvalidData :=
  match sortInvalid invalidV with
  | [] => []
  | h :: t => compactLoop defaultRemUp defaultRemDown h t

instance : IsTotal InvalidData (fun a b => a.seg.start_d ≤ b.seg.start_d) :=
  ⟨fun a b => Int.le_total _ _⟩

instance : IsTrans InvalidData (fun a b => a.seg.start_d ≤ b.seg.start_d) :=
  ⟨fun _ _ _ hab hbc => le_trans hab hbc⟩

theorem sortInvalid_sorted (l : List InvalidData) :
    List.Sorted (fun a b => a.seg.start_d ≤ b.seg.start_d) (sortInvalid l) :=
  List.sorted_insertionSort _ l

theorem compactLoop_spec (defUp defDown : Int) :
    ∀ (rest : List InvalidData) (cur : InvalidData),
    List.Sorted (fun a b => a.seg.start_d ≤ b.seg.start_d) rest →
    (∀ x ∈ rest, cur.seg.start_d ≤ x.seg.start_d) →
    (∀ y ∈ compactLoop defUp defDown cur rest, cur.seg.start_d ≤ y.seg.start_d) ∧
    List.Sorted (fun a b => a.seg.start_d ≤ b.seg.start_d)
      (compactLoop defUp defDown cur rest) ∧
    List.Chain' (fun a b => a.seg.end_d + 1 < b.seg.start_d)
      (compactLoop defUp defDown cur rest) ∧
    (compactLoop defUp defDown cur rest).head?.map (fun z => z.seg.start_d) =
      some cur.seg.start_d
  | [], cur, _, _ => by
    refine ⟨?_, ?_, ?_, ?_⟩
    · intro y hy
      simp only [compactLoop, List.mem_singleton] at hy
      simp [hy]
    · simp [compactLoop]
    · simp [compactLoop]
    · simp [compactLoop]
  | l :: rest, cur, hsorted, hcur => by
    have hrest_sorted : List.Sorted (fun a b => a.seg.start_d ≤ b.seg.start_d) rest :=
      (List.sorted_cons.mp hsorted).2
    have hl_le : ∀ x ∈ rest, l.seg.start_d ≤ x.seg.start_d :=
      (List.sorted_cons.mp hsorted).1
    by_cases hmerge : cur.seg.end_d + 1 ≥ l.seg.start_d
    · have hstart : (mergeInvalid defUp defDown cur l).seg.start_d = cur.seg.start_d := rfl
      have hnext : ∀ x ∈ rest,
          (mergeInvalid defUp defDown cur l).seg.start_d ≤ x.seg.start_d := by
        intro x hx
        rw [hstart]
        exact le_trans (hcur l (List.mem_cons_self l rest)) (hl_le x hx)
      have ih := compactLoop_spec defUp defDown rest (mergeInvalid defUp defDown cur l)
        hrest_sorted hnext
      have heq : compactLoop defUp defDown cur (l :: rest) =
          compactLoop defUp defDown (mergeInvalid defUp defDown cur l) rest := by
        simp [compactLoop, hmerge]
      rw [heq]
      refine ⟨?_, ih.2.1, ih.2.2.1, ?_⟩
      · intro y hy
        have := ih.1 y hy
        rw [hstart] at this
        exact this
      · rw [ih.2.2.2, hstart]
    · have ih := compactLoop_spec defUp defDown rest l hrest_sorted hl_le
      have heq : compactLoop defUp defDown cur (l :: rest) =
          cur :: compactLoop defUp defDown l rest := by
        simp [compactLoop, hmerge]
      rw [heq]
      have hcur_le : ∀ y ∈ compactLoop defUp defDown l rest,
          cur.seg.start_d ≤ y.seg.start_d :=
        fun y hy => le_trans (hcur l (List.mem_cons_self l rest)) (ih.1 y hy)
      refine ⟨?_, ?_, ?_, ?_⟩
      · intro y hy
        rcases List.mem_cons.mp hy with rfl | hy'
        · exact le_refl _
        · exact hcur_le y hy'
      · exact List.sorted_cons.mpr ⟨hcur_le, ih.2.1⟩
      · refine List.chain'_cons'.mpr ⟨?_, ih.2.2.1⟩
        intro z hz
        have hzstart : z.seg.start_d = l.seg.start_d := by
          have hmap := ih.2.2.2
          rw [hz] at hmap
          simpa using hmap
        rw [hzstart]
        omega
      · simp

theorem pairwise_disjoint_of_sorted_chain :
    ∀ (l : List InvalidData),
    List.Sorted (fun a b => a.seg.start_d ≤ b.seg.start_d) l →
    List.Chain' (fun a b => a.seg.end_d + 1 < b.seg.start_d) l →
    List.Pairwise segDisjoint l
  | [], _, _ => List.Pairwise.nil
  | a :: l, hsorted, hchain => by
    have hl_sorted := (List.sorted_cons.mp hsorted).2
    have hl_chain := (List.chain'_cons'.mp hchain).2
    refine List.pairwise_cons.mpr ⟨?_, pairwise_disjoint_of_sorted_chain l hl_sorted hl_chain⟩
    intro y hy d hd
    -- From the chain, a ends strictly before the head of l starts; `y` starts
    -- no earlier than that head because l is sorted.
    cases l with
    | nil => exact absurd hy (by simp)
    | cons b t =>
      have hab : a.seg.end_d + 1 < b.seg.start_d :=
        (List.chain'_cons'.mp hchain).1 b rfl
      have hby : b.seg.start_d ≤ y.seg.start_d := by
        rcases List.mem_cons.mp hy with rfl | hy'
        · exact le_refl _
        · exact (List.sorted_cons.mp hl_sorted).1 y hy'
      rcases hd with ⟨⟨_, had⟩, ⟨hyd, _⟩⟩
      omega

/-- C7.  After `expand()`, every interval's diagonal range is a superset of
its previous extent (its `start_d` never increases and its `end_d` never
decreases); after `compact()`, the intervals of one matrix/vertex list are
pairwise disjoint. -/
theorem expand_superset_and_compact_disjoint (invalidV : List InvalidData)
    (defaultRemUp defaultRemDown : Int) :
    List.Forall₂ (fun before after =>
        after.seg.start_d ≤ before.seg.start_d ∧ before.seg.end_d ≤ after.seg.end_d ∧
        ∀ d : Int, inSeg before.seg d → inSeg after.seg d)
      invalidV (expand_invalid_vector invalidV defaultRemUp defaultRemDown) ∧
    List.Pairwise segDisjoint
      (compact_invalid_vector invalidV defaultRemUp defaultRemDown) := by
  constructor
  · induction invalidV with
    | nil => exact List.Forall₂.nil
    | cons iv t ih =>
      refine List.Forall₂.cons ?_ ih
      have hstart : (expandOne defaultRemUp defaultRemDown iv).seg.start_d ≤ iv.seg.start_d := by
        unfold expandOne
        dsimp only
        split_ifs <;> omega
      have hend : iv.seg.end_d ≤ (expandOne defaultRemUp defaultRemDown iv).seg.end_d := by
        unfold expandOne
        dsimp only
        split_ifs <;> omega
      exact ⟨hstart, hend, fun d hd => ⟨le_trans hstart hd.1, le_trans hd.2 hend⟩⟩
  · unfold compact_invalid_vector
    cases hs : sortInvalid invalidV with
    | nil => exact List.Pairwise.nil
    | cons h t =>
      have hsorted := sortInvalid_sorted invalidV
      rw [hs] at hsorted
      have hspec := compactLoop_spec defaultRemUp defaultRemDown t h
        (List.sorted_cons.mp hsorted).2 (List.sorted_cons.mp hsorted).1
      exact pairwise_disjoint_of_sorted_chain _ hspec.2.1 hspec.2.2.1

/-- Closed witness for `expand_superset_and_compact_disjoint`: the concrete
list holding the two M-matrix invalidation records pushed by an M-jump at
diagonal 2 followed by an I-jump at diagonal 0 (penalties `(0, 2, 3, 1)`),
expanded once and compacted with the default counters `gape = 1`. -/
theorem expand_superset_and_compact_disjoint_witness :
    (expand_invalid_vector [⟨⟨2, 2⟩, 4, 4⟩, ⟨⟨0, 0⟩, 1, 4⟩] 1 1 =
      [⟨⟨2, 2⟩, 3, 3⟩, ⟨⟨0, 1⟩, 1, 3⟩]) ∧
    (compact_invalid_vector [⟨⟨2, 2⟩, 3, 3⟩, ⟨⟨0, 1⟩, 1, 3⟩] 1 1 =
      [⟨⟨0, 2⟩, 1, 3⟩]) ∧
    List.Pairwise segDisjoint (compact_invalid_vector [⟨⟨2, 2⟩, 3, 3⟩, ⟨⟨0, 1⟩, 1, 3⟩] 1 1) :=
  ⟨by decide, by decide,
    (expand_superset_and_compact_disjoint [⟨⟨2, 2⟩, 3, 3⟩, ⟨⟨0, 1⟩, 1, 3⟩] 1 1).2⟩

/-- Default cell of every scratchpad slot: `Cell{-1, -1, -1, -1,
Cell::Matrix::None}` (`scratchpad.h` line 30); the `edit_op` field is
value-initialized to its first enumerator. -/
def scratchDefaultCell : Cell := ⟨-1, -1, -1, -1, .noneM, .noneE⟩

/-- `class ScratchPad` (`scratchpad.h`): the dense wavefront `_wf` indexed by
diagonal over `[min_diag, max_diag]` plus the list `_diags` of touched
diagonals.  The dense buffer is modelled sparsely: `cells` holds the slots
that have ever been assigned, every other slot holds the default cell (this is
exactly the observable content of the C++ array).  The C++ code only ever
indexes inside the bounds (the aligner guarantees the bound before calling,
per the spec's §4.2 failure note). -/
structure ScratchPad where
  minDiag : Int
  maxDiag : Int
  cells : List (Int × Cell)
  diags : List Int
deriving DecidableEq, Repr

/-- `_wf[diag]`: the assigned value if any, else the default cell. -/
def ScratchPad.wf (sp : ScratchPad) (d : Int) : Cell :=
  ((sp.cells.find? (fun pr => pr.1 == d)).map Prod.snd).getD scratchDefaultCell

/-- `ScratchPad::ScratchPad(min_diag, max_diag)`: every slot holds the default
cell and no diagonal is touched. -/
def ScratchPad.mk0 (minDiag maxDiag : Int) : ScratchPad :=
  ⟨minDiag, maxDiag, [], []⟩

/-- `ScratchPad::access_alloc(diag)` (`scratchpad.h` lines 36-50): the diagonal
is appended to `_diags` iff the cell's offset is still the default `-1`
(`size += _wf[diag].offset == -1`), and a mutable reference to the cell is
returned — modelled by pairing the new state with the current cell value. -/
def ScratchPad.access_alloc (sp : ScratchPad) (diag : Int) : ScratchPad × Cell :=
  ({ sp with diags := if (sp.wf diag).offset = -1 then sp.diags ++ [diag] else sp.diags },
   sp.wf diag)

/-- Assignment through the reference returned by `access_alloc`. -/
def ScratchPad.write (sp : ScratchPad) (diag : Int) (c : Cell) : ScratchPad :=
  { sp with cells := (diag, c) :: sp.cells.filter (fun pr => pr.1 != diag) }

/-- The access-and-conditional-write pattern used at every `access_alloc` call
site (`sparsify_M_data` / `sparsify_jumps_data` / `sparsify_indel_data` in
`theseus_aligner_impl.cpp`): `auto &cell = _scratchpad->access_alloc(d);
const bool cmp = cell.offset < new_cell.offset; cell = cmp ? new_cell : cell;`. -/
def ScratchPad.accessWrite (sp : ScratchPad) (diag : Int) (newCell : Cell) : ScratchPad :=
  let pr := sp.access_alloc diag
  if pr.2.offset < newCell.offset then pr.1.write diag newCell else pr.1

/-- `ScratchPad::reset()` (`scratchpad.h` lines 99-104): set `offset := -1` for
every touched diagonal and clear the touched list; the other fields of a cell
keep their values, exactly as in the source. -/
def ScratchPad.reset (sp : ScratchPad) : ScratchPad :=
  { sp with
    cells := sp.cells.map (fun pr =>
      if pr.1 ∈ sp.diags then (pr.1, { pr.2 with offset := -1 }) else pr),
    diags := [] }

theorem find?_filter_ne (d d' : Int) (h : d' ≠ d) :
    ∀ (l : List (Int × Cell)),
    (l.filter (fun pr => pr.1 != d)).find? (fun pr => pr.1 == d') =
      l.find? (fun pr => pr.1 == d')
  | [] => rfl
  | x :: l => by
    have ih := find?_filter_ne d d' h l
    by_cases hx : x.1 = d
    · have hb : (d == d') = false := by
        simp only [beq_eq_false_iff_ne, ne_eq]
        exact fun he => h he.symm
      simp [List.filter_cons, List.find?_cons, hx, hb, ih]
    · by_cases hpx : x.1 = d'
      · simp [List.filter_cons, List.find?_cons, hx, hpx, h]
      · simp [List.filter_cons, List.find?_cons, hx, hpx, ih]

theorem find?_map_keyPreserving (g : Int × Cell → Int × Cell)
    (hg : ∀ pr, (g pr).1 = pr.1) (d : Int) :
    ∀ (l : List (Int × Cell)),
    (l.map g).find? (fun pr => pr.1 == d) = (l.find? (fun pr => pr.1 == d)).map g
  | [] => rfl
  | x :: l => by
    have ih := find?_map_keyPreserving g hg d l
    by_cases hpx : x.1 = d
    · simp [List.find?_cons, hg x, hpx]
    · simp [List.find?_cons, hg x, hpx, ih]

theorem wf_write (sp : ScratchPad) (d : Int) (c : Cell) (d' : Int) :
    (sp.write d c).wf d' = (if d' = d then c else sp.wf d') := by
  unfold ScratchPad.write ScratchPad.wf
  by_cases hd : d' = d
  · subst hd
    simp [List.find?_cons]
  · have hne : ¬ d = d' := fun he => hd he.symm
    simp [List.find?_cons, hne, hd, find?_filter_ne d d' hd sp.cells]

theorem wf_reset (sp : ScratchPad) (d : Int) :
    sp.reset.wf d =
      (if d ∈ sp.diags then { sp.wf d with offset := -1 } else sp.wf d) := by
  unfold ScratchPad.reset ScratchPad.wf
  rw [find?_map_keyPreserving
        (fun pr => if pr.1 ∈ sp.diags then (pr.1, { pr.2 with offset := -1 }) else pr)
        (fun pr => by by_cases hmem : pr.1 ∈ sp.diags <;> simp [hmem]) d sp.cells]
  cases hf : sp.cells.find? (fun pr => pr.1 == d) with
  | none =>
    by_cases hd : d ∈ sp.diags <;> simp [hd, scratchDefaultCell]
  | some pr =>
    have hkey : pr.1 = d := by
      have := List.find?_some hf
      simpa using this
    by_cases hd : d ∈ sp.diags
    · simp [hd, hkey]
    · simp [hd, hkey]

/-- Apply a sequence of `access_or_create`-and-write operations. -/
def applyAccessWrites (sp : ScratchPad) : List (Int × Cell) → ScratchPad
  | [] => sp
  | (d, c) :: ops => applyAccessWrites (sp.accessWrite d c) ops

/-- The diagonals of an operation sequence in first-touch order, each listed
once (spec-side definition used to state C9). -/
def firstTouches (acc : List Int) : List (Int × Cell) → List Int
  | [] => acc
  | (d, _) :: ops => firstTouches (if d ∈ acc then acc else acc ++ [d]) ops

/-- Scratchpad state invariant: a diagonal is listed in `_diags` iff its cell's
offset is not the default `-1`, and `_diags` has no duplicates. -/
def spInv (sp : ScratchPad) : Prop :=
  (∀ d : Int, d ∈ sp.diags ↔ (sp.wf d).offset ≠ -1) ∧ sp.diags.Nodup

theorem accessWrite_diags (sp : ScratchPad) (d : Int) (c : Cell) :
    (sp.accessWrite d c).diags =
      (if (sp.wf d).offset = -1 then sp.diags ++ [d] else sp.diags) := by
  unfold ScratchPad.accessWrite ScratchPad.access_alloc ScratchPad.write
  dsimp only
  split_ifs <;> rfl

theorem accessWrite_wf (sp : ScratchPad) (d : Int) (c : Cell) (d' : Int) :
    ((sp.accessWrite d c).wf d') =
      (if d' = d ∧ (sp.wf d).offset < c.offset then c else sp.wf d') := by
  unfold ScratchPad.accessWrite ScratchPad.access_alloc
  dsimp only
  by_cases hw : (sp.wf d).offset < c.offset
  · rw [if_pos hw, wf_write]
    by_cases hd : d' = d
    · rw [if_pos hd, if_pos ⟨hd, hw⟩]
    · rw [if_neg hd, if_neg (fun hx : d' = d ∧ (sp.wf d).offset < c.offset => hd hx.1)]
      rfl
  · rw [if_neg hw, if_neg (fun hx : d' = d ∧ (sp.wf d).offset < c.offset => hw hx.2)]
    rfl

theorem accessWrite_spInv (sp : ScratchPad) (d : Int) (c : Cell)
    (hc : 0 ≤ c.offset) (h : spInv sp) : spInv (sp.accessWrite d c) := by
  obtain ⟨hiff, hnodup⟩ := h
  constructor
  · intro d'
    rw [accessWrite_diags, accessWrite_wf]
    by_cases hdef : (sp.wf d).offset = -1
    · rw [if_pos hdef]
      by_cases hd : d' = d
      · subst hd
        have hw : (sp.wf d').offset < c.offset := by omega
        rw [if_pos ⟨rfl, hw⟩]
        simp
        omega
      · rw [if_neg (fun hx => hd hx.1)]
        rw [List.mem_append]
        simp only [List.mem_singleton, hd, or_false]
        exact hiff d'
    · rw [if_neg hdef]
      by_cases hd : d' = d
      · subst hd
        by_cases hw : (sp.wf d').offset < c.offset
        · rw [if_pos ⟨rfl, hw⟩]
          rw [hiff d']
          constructor
          · intro _; omega
          · intro _; exact hdef
        · rw [if_neg (fun hx => hw hx.2)]
          exact hiff d'
      · rw [if_neg (fun hx => hd hx.1)]
        exact hiff d'
  · rw [accessWrite_diags]
    by_cases hdef : (sp.wf d).offset = -1
    · rw [if_pos hdef]
      have hdmem : d ∉ sp.diags := fun hm => (hiff d).mp hm hdef
      simp [List.nodup_append, hnodup, hdmem]
    · rw [if_neg hdef]
      exact hnodup

theorem applyAccessWrites_diags (ops : List (Int × Cell)) :
    ∀ (sp : ScratchPad),
    (∀ op ∈ ops, 0 ≤ op.2.offset) → spInv sp →
    spInv (applyAccessWrites sp ops) ∧
    (applyAccessWrites sp ops).diags = firstTouches sp.diags ops := by
  induction ops with
  | nil => exact fun sp _ h => ⟨h, rfl⟩
  | cons op rest ih =>
    intro sp hnn h
    obtain ⟨d, c⟩ := op
    have hc : 0 ≤ c.offset := hnn (d, c) (List.mem_cons_self _ _)
    have hrest : ∀ op ∈ rest, 0 ≤ op.2.offset :=
      fun op hop => hnn op (List.mem_cons_of_mem _ hop)
    have hinv' := accessWrite_spInv sp d c hc h
    have happly : applyAccessWrites sp ((d, c) :: rest) =
        applyAccessWrites (sp.accessWrite d c) rest := rfl
    have hft : firstTouches sp.diags ((d, c) :: rest) =
        firstTouches (if d ∈ sp.diags then sp.diags else sp.diags ++ [d]) rest := rfl
    have hdiags : (sp.accessWrite d c).diags =
        (if d ∈ sp.diags then sp.diags else sp.diags ++ [d]) := by
      rw [accessWrite_diags]
      by_cases hdef : (sp.wf d).offset = -1
      · have : d ∉ sp.diags := fun hm => (h.1 d).mp hm hdef
        rw [if_pos hdef, if_neg this]
      · have : d ∈ sp.diags := (h.1 d).mpr hdef
        rw [if_neg hdef, if_pos this]
    rw [happly, hft, ← hdiags]
    exact ih (sp.accessWrite d c) hrest hinv'

theorem reset_restores (sp : ScratchPad) (h : spInv sp) :
    (∀ d : Int, (sp.reset.wf d).offset = -1) ∧ sp.reset.diags = [] := by
  constructor
  · intro d
    rw [wf_reset]
    by_cases hd : d ∈ sp.diags
    · rw [if_pos hd]
    · rw [if_neg hd]
      by_contra hne
      exact hd ((h.1 d).mpr hne)
  · rfl

/-- C9.  Starting from a freshly constructed scratchpad, any sequence of
in-bounds `access_or_create` calls (each followed by the aligner's conditional
write of a cell with non-negative offset, which is the only way the call sites
ever use the returned reference) appends a diagonal to the touched list iff
its cell still had the default offset `-1`; consequently `active_diags()`
lists each touched diagonal exactly once, in first-touch order, and a
subsequent `reset()` leaves every cell's offset at `-1` with an empty touched
list.  (A cell's stored offset only ever increases, so a written cell never
returns to `-1` before `reset`.) -/
theorem scratchpad_touch_once_and_reset (minD maxD : Int) (ops : List (Int × Cell))
    (hnn : ∀ op ∈ ops, 0 ≤ op.2.offset)
    (hbounds : ∀ op ∈ ops, minD ≤ op.1 ∧ op.1 ≤ maxD) :
    (∀ (sp : ScratchPad) (d : Int) (c : Cell),
      (sp.accessWrite d c).diags =
        (if (sp.wf d).offset = -1 then sp.diags ++ [d] else sp.diags)) ∧
    (applyAccessWrites (ScratchPad.mk0 minD maxD) ops).diags = firstTouches [] ops ∧
    (applyAccessWrites (ScratchPad.mk0 minD maxD) ops).diags.Nodup ∧
    (∀ d : Int,
      ((applyAccessWrites (ScratchPad.mk0 minD maxD) ops).reset.wf d).offset = -1) ∧
    (applyAccessWrites (ScratchPad.mk0 minD maxD) ops).reset.diags = [] := by
  have hinv0 : spInv (ScratchPad.mk0 minD maxD) := by
    constructor
    · intro d
      simp [ScratchPad.mk0, ScratchPad.wf, scratchDefaultCell]
    · simp [ScratchPad.mk0]
  have happ := applyAccessWrites_diags ops (ScratchPad.mk0 minD maxD) hnn hinv0
  have hreset := reset_restores _ happ.1
  exact ⟨accessWrite_diags, happ.2, happ.1.2, hreset.1, hreset.2⟩

/-- Closed witness for `scratchpad_touch_once_and_reset`: three operations on
diagonals `0`, `1`, `0` (the second touch of `0` does not append), evaluated
on the concrete scratchpad over `[-2, 2]`. -/
theorem scratchpad_touch_once_and_reset_witness :
    (∀ op ∈ [((0 : Int), ({ scratchDefaultCell with offset := 2 } : Cell)),
             (1, { scratchDefaultCell with offset := 3 }),
             (0, { scratchDefaultCell with offset := 5 })], 0 ≤ op.2.offset) ∧
    (applyAccessWrites (ScratchPad.mk0 (-2) 2)
      [((0 : Int), ({ scratchDefaultCell with offset := 2 } : Cell)),
       (1, { scratchDefaultCell with offset := 3 }),
       (0, { scratchDefaultCell with offset := 5 })]).diags =
      firstTouches []
        [((0 : Int), ({ scratchDefaultCell with offset := 2 } : Cell)),
         (1, { scratchDefaultCell with offset := 3 }),
         (0, { scratchDefaultCell with offset := 5 })] ∧
    (applyAccessWrites (ScratchPad.mk0 (-2) 2)
      [((0 : Int), ({ scratchDefaultCell with offset := 2 } : Cell)),
       (1, { scratchDefaultCell with offset := 3 }),
       (0, { scratchDefaultCell with offset := 5 })]).reset.diags = [] := by
  have h := scratchpad_touch_once_and_reset (-2) 2
    [((0 : Int), ({ scratchDefaultCell with offset := 2 } : Cell)),
     (1, { scratchDefaultCell with offset := 3 }),
     (0, { scratchDefaultCell with offset := 5 })]
    (by decide) (by decide)
  exact ⟨by decide, h.2.1, h.2.2.2.2⟩

/-- `Graph::edge` (`graph.h` lines 47-51). -/
structure Edge where
  from_vertex : Int
  to_vertex : Int
  overlap : Int
deriving DecidableEq, Repr

/-- `Graph::vertex` (`graph.h` lines 53-60), restricted to the fields the
aligner reads: the out-edge list and the string label `value` (modelled as a
character list).  `in_edges`, `name` and `first_poa_vtx` are not consulted by
any code a claim is about. -/
structure Vertex where
  out_edges : List Edge
  value : List Char
deriving DecidableEq, Repr

/-- `class Graph` (`graph.h`): the vertex vector. -/
structure Graph where
  vertices : List Vertex
deriving DecidableEq, Repr

def defaultVertex : Vertex := ⟨[], []⟩

/-- `_graph._vertices[i]`.  The aligner only ever indexes with valid ids; the
model totalizes the access with an empty default vertex. -/
def Graph.vertexAt (g : Graph) (i : Int) : Vertex :=
  g.vertices.getD i.toNat defaultVertex

/-- `struct dijkstra_data` (`theseus_aligner_impl.cpp` lines 630-634). -/
structure DijkstraData where
  vertex_id : Int
  dist_from_source : Int
  prev_vertex : Int
deriving DecidableEq, Repr

/-- The element `std::priority_queue` with comparator `dijkstra_data_compare`
(`a.dist_from_source < b.dist_from_source`, lines 642-646) yields on `top()`:
the queue is a max-heap with respect to the comparator, so the element with
the GREATEST `dist_from_source` is popped — even though the comparator's doc
comment says "Closest to the source vertex first".  Among equal keys the heap
order is unspecified; the model takes the first maximal element (the claim's
failing input has no ties). -/
def pqTop (x : DijkstraData) (xs : List DijkstraData) : DijkstraData :=
  xs.foldl (fun best y =>
    if best.dist_from_source < y.dist_from_source then y else best) x

def pqRemoveFirst : List DijkstraData → DijkstraData → List DijkstraData
  | [], _ => []
  | y :: ys, m => if y = m then ys else y :: pqRemoveFirst ys m

def pqPop (pq : List DijkstraData) : Option (DijkstraData × List DijkstraData) :=
  match pq with
  | [] => none
  | x :: xs =>
    let top := pqTop x xs
    some (top, pqRemoveFirst (x :: xs) top)

/-- Pop of the hypothetical min-first queue the comparator's doc comment
("Closest to the source vertex first") and the claim describe: the element
with the SMALLEST tentative distance. -/
def pqPopMin (pq : List DijkstraData) : Option (DijkstraData × List DijkstraData) :=
  match pq with
  | [] => none
  | x :: xs =>
    let top := xs.foldl (fun best y =>
      if y.dist_from_source < best.dist_from_source then y else best) x
    some (top, pqRemoveFirst (x :: xs) top)

/-- `std::set<dijkstra_data, set_data_compare>` keyed by `vertex_id`
(lines 653-657): modelled as a list with at most one record per vertex id;
`find({v, 0, 0})` compares only the id. -/
def setFind (s : List DijkstraData) (v : Int) : Option DijkstraData :=
  s.find? (fun x => x.vertex_id == v)

/-- `optimal_data.erase(it); optimal_data.insert(new_data)` for a record with
the same key: replace in place. -/
def setReplace (s : List DijkstraData) (nd : DijkstraData) : List DijkstraData :=
  s.map (fun x => if x.vertex_id == nd.vertex_id then nd else x)

/-- Relaxation of one out-edge of `vtx_data` (`theseus_aligner_impl.cpp`
lines 679-707): edge weight is `|label(vtx)| − overlap`; a sink record gets
`offset_sink` added to its stored distance, but the improvement test compares
the raw `new_dist` against the stored distance. -/
def relaxEdge (g : Graph) (sink offsetSink : Int) (vtx : DijkstraData)
    (st : List DijkstraData × List DijkstraData) (e : Edge) :
    List DijkstraData × List DijkstraData :=
  let v := e.to_vertex
  let addedDist := ((g.vertexAt vtx.vertex_id).value.length : Int) - e.overlap
  let newDist := vtx.dist_from_source + addedDist
  let nd : DijkstraData :=
    { vertex_id := v,
      dist_from_source := if v = sink then newDist + offsetSink else newDist,
      prev_vertex := vtx.vertex_id }
  match setFind st.1 v with
  | none => (st.1 ++ [nd], st.2 ++ [nd])
  | some it =>
    if newDist < it.dist_from_source then (setReplace st.1 nd, st.2 ++ [nd])
    else st

/-- The main loop of `TheseusAlignerImpl::dijkstra` (lines 675-716),
parameterized by the pop discipline so that the code's max-first pop and the
documented min-first pop can be compared.  `break` on an empty queue leaves
the current record as the final one, exactly as in the source. -/
def dijkstraLoop (pop : List DijkstraData → Option (DijkstraData × List DijkstraData))
    (g : Graph) (sink offsetSink : Int) :
    Nat → DijkstraData → List DijkstraData → List DijkstraData →
    Option (DijkstraData × List DijkstraData)
  | 0, _, _, _ => none
  | fuel + 1, vtx, optimal, pq =>
    if vtx.vertex_id = sink then some (vtx, optimal)
    else
      let st := (g.vertexAt vtx.vertex_id).out_edges.foldl
        (relaxEdge g sink offsetSink vtx) (optimal, pq)
      match pop st.2 with
      | some (top, rest) => dijkstraLoop pop g sink offsetSink fuel top st.1 rest
      | none => some (vtx, st.1)

/-- The path-reconstruction loop at the end of `dijkstra` (lines 725-729). -/
def dijkstraPath (optimal : List DijkstraData) (source : Int) :
    Nat → DijkstraData → List Int → Option (List Int)
  | 0, _, _ => none
  | fuel + 1, vtx, path =>
    if vtx.vertex_id = source then some path
    else
      match setFind optimal vtx.prev_vertex with
      | none => none
      | some it => dijkstraPath optimal source fuel it (path ++ [it.vertex_id])

/-- `TheseusAlignerImpl::dijkstra(source, sink, offset_source, offset_sink)`
(lines 660-730), returning the `'I'` operations and path vertices it appends
to `_alignment.cigar`.  `uninitPrev` stands for the uninitialized
`source_data.prev_vertex` (never read).  `pop` is instantiated with `pqPop`
for the source's max-first priority queue. -/
def dijkstra (pop : List DijkstraData → Option (DijkstraData × List DijkstraData))
    (g : Graph) (uninitPrev source sink offsetSource offsetSink : Int)
    (fuel : Nat) : Option (List Char × List Int) :=
  let sourceData : DijkstraData := ⟨source, -offsetSource, uninitPrev⟩
  match dijkstraLoop pop g sink offsetSink fuel sourceData [sourceData] [] with
  | none => none
  | some (vtx, optimal) =>
    let numInsertions := vtx.dist_from_source
    let insOps := List.replicate numInsertions.toNat 'I'
    match dijkstraPath optimal source fuel vtx [] with
    | none => none
    | some path => some (insOps, path)

/-- The failing input for C6: three vertices with 3-character labels,
edges `0→1` (overlap 2), `0→2` (overlap 0), `1→2` (overlap 2); hence edge
weights `0→1 : 1`, `0→2 : 3`, `1→2 : 1` — the two-edge path to the sink costs
2, the direct edge 3. -/
def dijkstraExampleGraph : Graph :=
  ⟨[⟨[⟨0, 1, 2⟩, ⟨0, 2, 0⟩], ['A', 'A', 'A']⟩,
    ⟨[⟨1, 2, 2⟩], ['A', 'A', 'A']⟩,
    ⟨[], ['A', 'A', 'A']⟩]⟩

/-- C6 (code bug).  On the failing input, the source's Dijkstra — whose
priority queue pops the FARTHEST vertex first because
`dijkstra_data_compare` is a less-than comparator handed to the max-heap
`std::priority_queue`, contradicting its own doc comment "Closest to the
source vertex first" — pops the sink at tentative distance 3 and emits three
`I` operations, whereas the documented/claimed minimal-tentative-distance
expansion reaches the sink at distance 2 and emits two; the claim's required
final distance `q_skip + off_w − off_u` equals the true shortest distance 2.
The statement quantifies over the uninitialized `prev_vertex` of the source
record, which never influences the result. -/
theorem dijkstra_farthest_first_bug (u : Int) :
    dijkstra pqPop dijkstraExampleGraph u 0 2 0 0 10 =
      some (['I', 'I', 'I'], [0]) ∧
    dijkstra pqPopMin dijkstraExampleGraph u 0 2 0 0 10 =
      some (['I', 'I'], [1, 0]) := by
  constructor <;> rfl

/-- Environment read by the backtrace (`TheseusAlignerImpl::backtrace` /
`one_backtrace_step`): the graph, the two persistent BeyondScope buffers the
step resolves `prev_pos` into, and the values standing for reads the C++
leaves undefined — `uninitCell` models the never-assigned `Cell prev_cell;`
when `from_matrix` is neither `M` nor `MJumps` (lines 564-566), and
`uninitPrev` the uninitialized `prev_vertex` of Dijkstra's source record. -/
structure BacktraceEnv where
  graph : Graph
  mWf : List Cell
  mJumpsWf : List Cell
  uninitCell : Cell
  uninitPrev : Int
deriving Repr

/-- Read `buffer[i]` for an `int64_t` index; in-range in every run a claim is
about (out-of-range access is undefined behaviour in the source and is
totalized with the unspecified-cell value). -/
def cellAtD (l : List Cell) (i : Int) (dflt : Cell) : Cell :=
  if i < 0 then dflt else l.getD i.toNat dflt

/-- `add_matches(start_matches, end_matches)` (`theseus_aligner_impl.cpp`
lines 528-536): one `M` per integer in `[start, end)`; an empty or reversed
range adds nothing. -/
def add_matches (startM endM : Int) : List Char :=
  List.replicate (endM - startM).toNat 'M'

/-- `TheseusAlignerImpl::one_backtrace_step` (lines 560-607): resolve the
predecessor through `beyond.m_wf` for tag `M` and `beyond.m_jumps_wf` for tag
`MJumps` (any other tag leaves `prev_cell` unassigned); then emit the edit
operations for the step and, on an insertion jump, recover the intermediate
path with `dijkstra`.  Returns the predecessor cell (the new current cell)
together with the CIGAR and path entries appended. -/
def one_backtrace_step (env : BacktraceEnv) (fuelD : Nat) (cur : Cell) :
    Option (Cell × List Char × List Int) :=
  let prev : Cell :=
    if cur.fromMatrix = .m then cellAtD env.mWf cur.prevPos env.uninitCell
    else if cur.fromMatrix = .mJumps then cellAtD env.mJumpsWf cur.prevPos env.uninitCell
    else env.uninitCell
  if cur.vertexId = prev.vertexId then
    if cur.diag = prev.diag then
      if cur.offset > prev.offset then
        some (prev, add_matches (prev.offset + 1) cur.offset ++ ['X'], [])
      else
        some (prev, [], [])
    else
      if cur.diag < prev.diag then
        let numIndels := prev.diag - cur.diag
        some (prev, add_matches (prev.offset + numIndels) cur.offset ++
          List.replicate numIndels.toNat 'D', [])
      else
        let numIndels := cur.diag - prev.diag
        some (prev, add_matches prev.offset cur.offset ++
          List.replicate numIndels.toNat 'I', [])
  else
    let ms := add_matches prev.offset cur.offset
    if cur.editOp = .ins then
      let offsetCurrV := ((env.graph.vertexAt cur.vertexId).value.length : Int) -
        (cur.offset - prev.offset)
      let offsetPrevV := prev.diag + prev.offset
      match dijkstra pqPop env.graph env.uninitPrev prev.vertexId cur.vertexId
          offsetPrevV offsetCurrV fuelD with
      | none => none
      | some (insOps, pathAdd) => some (prev, ms ++ insOps, pathAdd)
    else
      some (prev, ms, [prev.vertexId])

/-- The `while (curr_pos.vertex_id != initial_vertex)` loop of
`TheseusAlignerImpl::backtrace` (lines 616-619), with fuel. -/
def backtraceLoop (env : BacktraceEnv) (fuelD : Nat) (initialVertex : Int) :
    Nat → Cell → List Char → List Int → Option (Cell × List Char × List Int)
  | 0, _, _, _ => none
  | fuel + 1, cur, cigar, path =>
    if cur.vertexId = initialVertex then some (cur, cigar, path)
    else
      match one_backtrace_step env fuelD cur with
      | none => none
      | some (prev, dc, dp) =>
        backtraceLoop env fuelD initialVertex fuel prev (cigar ++ dc) (path ++ dp)

/-- `TheseusAlignerImpl::backtrace(initial_vertex)` (lines 611-626): push the
start cell's vertex, loop until the current cell's vertex is the initial
vertex, append one `D` per query position in `[0, curr.offset)`
(`remaining_deletions`), and reverse both vectors. -/
def backtrace (env : BacktraceEnv) (fuelD fuelL : Nat) (initialVertex : Int)
    (startPos : Cell) : Option (List Char × List Int) :=
  match backtraceLoop env fuelD initialVertex fuelL startPos [] [startPos.vertexId] with
  | none => none
  | some (cur, cigar, path) =>
    some ((cigar ++ List.replicate cur.offset.toNat 'D').reverse, path.reverse)

/-- Concrete environment for the C3 counterexample: empty buffers, a one-vertex
graph, concrete stand-ins for the unspecified values. -/
def backtraceExampleEnv : BacktraceEnv :=
  ⟨⟨[⟨[], ['A', 'A']⟩]⟩, [], [], scratchDefaultCell, 0⟩

/-- Start cell for the C3 counterexample: already at the initial vertex with
`prev_pos = −1` and `offset = 2`. -/
def backtraceExampleStart : Cell :=
  ⟨-1, 0, 2, 0, .mJumps, .m⟩

/-- C3 counterexample.  At a start cell with `prev_pos = −1`, `offset = 2`,
sitting on the initial vertex, both the claimed loop condition
(`prev_pos == −1`) and the code's (`vertex_id == initial_vertex`) perform zero
steps, so the outputs differ exactly in the trailing operations: the claim
says one `M` per query position in `[0, curr.offset)` (giving `[M, M]`), but
the code emits `remaining_deletions` `D` operations (giving `[D, D]`). -/
theorem backtrace_trailing_ops_counterexample :
    backtrace backtraceExampleEnv 10 10 0 backtraceExampleStart =
      some (['D', 'D'], [0]) ∧
    backtrace backtraceExampleEnv 10 10 0 backtraceExampleStart ≠
      some (['M', 'M'], [0]) := by
  exact ⟨rfl, by decide⟩

theorem backtraceLoop_final_vertex (env : BacktraceEnv) (fuelD : Nat) (initV : Int) :
    ∀ (fuel : Nat) (cur : Cell) (cigar : List Char) (path : List Int)
      (res : Cell × List Char × List Int),
    backtraceLoop env fuelD initV fuel cur cigar path = some res →
    res.1.vertexId = initV ∧ ∃ extraC extraP, res.2.1 = cigar ++ extraC ∧
      res.2.2 = path ++ extraP
  | 0, cur, cigar, path, res => by
    intro h
    exact absurd h (by simp [backtraceLoop])
  | fuel + 1, cur, cigar, path, res => by
    intro h
    rw [backtraceLoop] at h
    by_cases hv : cur.vertexId = initV
    · rw [if_pos hv] at h
      obtain rfl := Option.some.inj h
      exact ⟨hv, [], [], by simp, by simp⟩
    · rw [if_neg hv] at h
      cases hstep : one_backtrace_step env fuelD cur with
      | none => rw [hstep] at h; exact absurd h (by simp)
      | some pr =>
        rw [hstep] at h
        obtain ⟨prev, dc, dp⟩ := pr
        have ih := backtraceLoop_final_vertex env fuelD initV fuel prev
          (cigar ++ dc) (path ++ dp) res h
        obtain ⟨hfin, extraC, extraP, hC, hP⟩ := ih
        exact ⟨hfin, dc ++ extraC, dp ++ extraP, by simp [hC], by simp [hP]⟩

/-- C3 (amended).  For every terminating run of the backtrace: the path starts
with `start_pos.vertex_id`; the loop repeats `one_backtrace_step` — which
resolves the predecessor through `beyond.m_wf` for tag `M` and
`beyond.m_jumps_wf` for tag `MJumps` and leaves it unresolved for any other
tag — until the current cell's `vertex_id` equals the initial vertex (not
until `prev_pos == −1`); then one `D` operation (not `M`) is emitted for every
query position in `[0, curr.offset)`, and both the CIGAR and the path are
reversed. -/
theorem backtrace_structure (env : BacktraceEnv) (fuelD fuelL : Nat)
    (initialVertex : Int) (startPos : Cell) (result : List Char × List Int)
    (h : backtrace env fuelD fuelL initialVertex startPos = some result) :
    ∃ finalCell loopCigar loopPath,
      backtraceLoop env fuelD initialVertex fuelL startPos [] [startPos.vertexId] =
        some (finalCell, loopCigar, loopPath) ∧
      finalCell.vertexId = initialVertex ∧
      loopPath.head? = some startPos.vertexId ∧
      result.1 = (loopCigar ++ List.replicate finalCell.offset.toNat 'D').reverse ∧
      result.2 = loopPath.reverse := by
  unfold backtrace at h
  cases hloop : backtraceLoop env fuelD initialVertex fuelL startPos [] [startPos.vertexId] with
  | none => rw [hloop] at h; exact absurd h (by simp)
  | some res =>
    rw [hloop] at h
    obtain ⟨finalCell, loopCigar, loopPath⟩ := res
    have hres : result =
        ((loopCigar ++ List.replicate finalCell.offset.toNat 'D').reverse,
          loopPath.reverse) := (Option.some.inj h).symm
    have hfin := backtraceLoop_final_vertex env fuelD initialVertex fuelL startPos
      [] [startPos.vertexId] (finalCell, loopCigar, loopPath) hloop
    obtain ⟨hv, _, extraP, _, hP⟩ := hfin
    refine ⟨finalCell, loopCigar, loopPath, rfl, hv, ?_, ?_, ?_⟩
    · have hP' : loopPath = [startPos.vertexId] ++ extraP := hP
      rw [hP']
      simp
    · rw [hres]
    · rw [hres]

/-- Closed witness for `backtrace_structure` at the counterexample input,
discharging its hypothesis with the concrete result `([D, D], [0])`. -/
theorem backtrace_structure_witness :
    ∃ finalCell loopCigar loopPath,
      backtraceLoop backtraceExampleEnv 10 0 10 backtraceExampleStart []
          [backtraceExampleStart.vertexId] = some (finalCell, loopCigar, loopPath) ∧
      finalCell.vertexId = 0 ∧
      loopPath.head? = some backtraceExampleStart.vertexId ∧
      (['D', 'D'] : List Char) =
        (loopCigar ++ List.replicate finalCell.offset.toNat 'D').reverse ∧
      ([0] : List Int) = loopPath.reverse :=
  backtrace_structure backtraceExampleEnv 10 10 0 backtraceExampleStart
    (['D', 'D'], [0]) rfl

/-- `Scope::range` (`scope.h` lines 51-54); `end` is a Lean keyword, so the
field is `end_`. -/
structure RangeT where
  start : Int
  end_ : Int
deriving DecidableEq, Repr

/-- One per-score slot of the Scope as used by `theseus_aligner_impl.cpp`:
the `i_wf`, `d_wf` and `i_jumps_wf` wavefronts plus the `m_pos`, `i_pos`,
`d_pos` range vectors (the checked-in `scope.h` is a newer variant without
`i_jumps_wf`; the implementation — `_scope->i_jumps_wf(score)` — and spec
§4.3 use this layout). -/
structure ScoreSlot where
  iWf : List Cell
  dWf : List Cell
  iJumpsWf : List Cell
  mPos : List RangeT
  iPos : List RangeT
  dPos : List RangeT
deriving DecidableEq, Repr

def emptySlot : ScoreSlot := ⟨[], [], [], [], [], []⟩

/-- `class Scope`: a circular queue of `nscores` slots, accessed at
`score % nscores` (`_squeue[score%_squeue.size()]`).  `Int.tmod` is C++'s
truncated `%`; every access in the aligner happens at a non-negative score. -/
structure Scope where
  nscores : Nat
  slots : List ScoreSlot
deriving DecidableEq, Repr

def Scope.slotIdx (sc : Scope) (s : Int) : Nat := (Int.tmod s (sc.nscores : Int)).toNat

def Scope.getSlot (sc : Scope) (s : Int) : ScoreSlot := sc.slots.getD (sc.slotIdx s) emptySlot

def Scope.setSlot (sc : Scope) (s : Int) (slot : ScoreSlot) : Scope :=
  { sc with slots := sc.slots.set (sc.slotIdx s) slot }

/-- `Scope::new_score(score)`: clear the slot the score maps to. -/
def Scope.new_score (sc : Scope) (s : Int) : Scope := sc.setSlot s emptySlot

/-- `Scope::new_alignment()`: clear every slot. -/
def Scope.new_alignment (sc : Scope) : Scope :=
  { sc with slots := List.replicate sc.slots.length emptySlot }

/-- The two persistent BeyondScope buffers the implementation uses
(`_beyond_scope->m_wf()` and `_beyond_scope->m_jumps_wf()`, flat per-alignment
vectors; the checked-in `beyond_scope.h` is a newer per-score variant not
compatible with these call sites). -/
structure BeyondScopeSt where
  mWf : List Cell
  mJumpsWf : List Cell
deriving DecidableEq, Repr

/-- `VerticesData::VertexData` (`vertices_data.h` lines 70-89): the vertex id,
the three invalid lists and the two jump-position scopes (vectors of
`_nscores` position lists). -/
structure VertexData where
  vertexId : Int
  mInvalid : List InvalidData
  iInvalid : List InvalidData
  dInvalid : List InvalidData
  mJumpsPositions : List (List Int)
  iJumpsPositions : List (List Int)
deriving DecidableEq, Repr

def freshVertexData (nscores : Nat) (vtx : Int) : VertexData :=
  ⟨vtx, [], [], [], List.replicate nscores [], List.replicate nscores []⟩

/-- `class VerticesData`: active-vertex list and the id→index map
(`_vertex_to_idx` defaults to `-1`; the C++ resize bookkeeping has no
observable effect beyond that default, so the map is modelled sparsely). -/
structure VerticesData where
  nscores : Nat
  activeVertices : List VertexData
  vertexToIdx : List (Int × Int)
deriving DecidableEq, Repr

def listModify (l : List VertexData) (i : Nat) (f : VertexData → VertexData) :
    List VertexData :=
  match l.get? i with
  | some x => l.set i (f x)
  | none => l

/-- `VerticesData::get_pos(score) = score % _nscores`. -/
def VerticesData.getPos (vd : VerticesData) (score : Int) : Int :=
  Int.tmod score (vd.nscores : Int)

/-- `VerticesData::get_id(vtx) = _vertex_to_idx[vtx]`. -/
def VerticesData.get_id (vd : VerticesData) (vtx : Int) : Int :=
  ((vd.vertexToIdx.find? (fun pr => pr.1 == vtx)).map Prod.snd).getD (-1)

def defaultVertexData : VertexData := freshVertexData 0 (-1)

/-- `VerticesData::get_vertex_data(vtx)` (read side). -/
def VerticesData.getVertexData (vd : VerticesData) (vtx : Int) : VertexData :=
  vd.activeVertices.getD (vd.get_id vtx).toNat defaultVertexData

/-- Update the record `get_vertex_data(vtx)` refers to. -/
def VerticesData.modifyVertexData (vd : VerticesData) (vtx : Int)
    (f : VertexData → VertexData) : VerticesData :=
  { vd with activeVertices := listModify vd.activeVertices (vd.get_id vtx).toNat f }

/-- `VerticesData::activate_vertex(vtx)` (`vertices_data.h` lines 432-446):
append a fresh record and set the index iff the vertex is not active yet. -/
def VerticesData.activate_vertex (vd : VerticesData) (vtx : Int) : VerticesData :=
  if vd.get_id vtx = -1 then
    { vd with
      activeVertices := vd.activeVertices ++ [freshVertexData vd.nscores vtx],
      vertexToIdx := (vtx, (vd.activeVertices.length : Int)) :: vd.vertexToIdx }
  else vd

/-- `VerticesData::invalidate_m_jump(idx, diag)` (`vertices_data.h` lines
348-372); `go = gapo`, `ge = gape`. -/
def VerticesData.invalidate_m_jump (vd : VerticesData) (p : Penalties)
    (idx : Int) (diag : Int) : VerticesData :=
  { vd with activeVertices := listModify vd.activeVertices idx.toNat (fun vdata =>
      { vdata with
        mInvalid := vdata.mInvalid ++
          [⟨⟨diag, diag⟩, p.gapo + p.gape, p.gapo + p.gape⟩],
        iInvalid := vdata.iInvalid ++
          [⟨⟨diag + 1, diag⟩, p.gapo + p.gape, 2 * (p.gapo + p.gape)⟩],
        dInvalid := vdata.dInvalid ++
          [⟨⟨diag, diag - 1⟩, 2 * (p.gapo + p.gape), p.gapo + p.gape⟩] }) }

/-- `VerticesData::invalidate_i_jump(idx, diag)` (`vertices_data.h` lines
315-339). -/
def VerticesData.invalidate_i_jump (vd : VerticesData) (p : Penalties)
    (idx : Int) (diag : Int) : VerticesData :=
  { vd with activeVertices := listModify vd.activeVertices idx.toNat (fun vdata =>
      { vdata with
        mInvalid := vdata.mInvalid ++
          [⟨⟨diag, diag⟩, p.gape, p.gapo + p.gape⟩],
        iInvalid := vdata.iInvalid ++
          [⟨⟨diag, diag⟩, p.gape, 2 * p.gapo + 3 * p.gape⟩],
        dInvalid := vdata.dInvalid ++
          [⟨⟨diag, diag - 1⟩, p.gapo + 2 * p.gape, p.gapo + p.gape⟩] }) }

/-- `VerticesData::expand()` (`vertices_data.h` lines 273-283): expand all
three invalid lists of every active vertex with defaults `(gape, gape)`. -/
def VerticesData.expand (vd : VerticesData) (p : Penalties) : VerticesData :=
  { vd with activeVertices := vd.activeVertices.map (fun vdata =>
      { vdata with
        mInvalid := expand_invalid_vector vdata.mInvalid p.gape p.gape,
        iInvalid := expand_invalid_vector vdata.iInvalid p.gape p.gape,
        dInvalid := expand_invalid_vector vdata.dInvalid p.gape p.gape }) }

/-- `VerticesData::compact()` (`vertices_data.h` lines 289-306). -/
def VerticesData.compact (vd : VerticesData) (p : Penalties) : VerticesData :=
  { vd with activeVertices := vd.activeVertices.map (fun vdata =>
      { vdata with
        mInvalid := compact_invalid_vector vdata.mInvalid p.gape p.gape,
        iInvalid := compact_invalid_vector vdata.iInvalid p.gape p.gape,
        dInvalid := compact_invalid_vector vdata.dInvalid p.gape p.gape }) }

/-- `VerticesData::valid_diagonal<matrix>(vtx, diag)` (`vertices_data.h` lines
383-415): linear scan of the invalid list; false iff some segment contains
the diagonal. -/
def validDiagonal (invalid : List InvalidData) (diag : Int) : Bool :=
  invalid.all (fun iv => !(iv.seg.start_d ≤ diag && diag ≤ iv.seg.end_d))

/-- `VerticesData::new_score(score)` (`vertices_data.h` lines 112-123): clear
both jump-position lists of every active vertex at the slot of `score`. -/
def VerticesData.new_score (vd : VerticesData) (score : Int) : VerticesData :=
  let pos := (vd.getPos score).toNat
  { vd with activeVertices := vd.activeVertices.map (fun vdata =>
      { vdata with
        mJumpsPositions := vdata.mJumpsPositions.set pos [],
        iJumpsPositions := vdata.iJumpsPositions.set pos [] }) }

/-- `VerticesData::new_alignment()`. -/
def VerticesData.new_alignment (vd : VerticesData) : VerticesData :=
  { vd with activeVertices := [], vertexToIdx := [] }

/-- The aligner's mutable state during the wavefront computation: the members
of `TheseusAlignerImpl` that `compute_new_wave` and its callees read or write
(`_alignment` is not among them — only `backtrace`/`add_*` touch the CIGAR,
and `align` only runs `backtrace` in MSA mode). -/
structure AlignerState where
  score : Int
  penalties : Penalties
  graph : Graph
  isMsa : Bool
  endFlag : Bool
  endVertex : Int
  startPos : Cell
  scratchpad : ScratchPad
  scope : Scope
  beyond : BeyondScopeSt
  vdata : VerticesData
  seq : List Char
deriving DecidableEq, Repr

def seqLen (st : AlignerState) : Int := (st.seq.length : Int)

def rangeAtD (l : List RangeT) (i : Int) : RangeT :=
  if i < 0 then ⟨0, 0⟩ else l.getD i.toNat ⟨0, 0⟩

/-- `TheseusAlignerImpl::sparsify_M_data` (lines 145-179): each source cell is
shifted, tagged `from_matrix = M` with `prev_pos` its index in `m_wf`, and
merged into the scratchpad through the conditional write when in bounds. -/
def sparsify_M_data (denseWf : List Cell) (offsetIncrease shiftFactor : Int)
    (cellsRange : RangeT) (m upperBound : Int) (edit : EditT)
    (sp : ScratchPad) : ScratchPad :=
  (List.range (cellsRange.end_ - cellsRange.start).toNat).foldl (fun sp l =>
    let idx : Int := cellsRange.start + l
    let base := cellAtD denseWf idx scratchDefaultCell
    let newCell : Cell :=
      { base with
        diag := base.diag + shiftFactor
        offset := base.offset + offsetIncrease
        fromMatrix := .m
        prevPos := idx
        editOp := edit }
    let newCol := newCell.offset + newCell.diag
    if newCell.offset ≤ m ∧ newCol ≤ upperBound then
      sp.accessWrite newCell.diag newCell
    else sp) sp

/-- `TheseusAlignerImpl::sparsify_jumps_data` (lines 182-220): source cells are
read at the recorded positions; `prev_pos`/`from_matrix` are overwritten only
for `MJumps` sources (`if (from_matrix == Cell::Matrix::MJumps)`). -/
def sparsify_jumps_data (denseWf : List Cell) (jumpsPositions : List Int)
    (offsetIncrease shiftFactor m upperBound : Int) (fromMatrix : MatrixT)
    (edit : EditT) (sp : ScratchPad) : ScratchPad :=
  jumpsPositions.foldl (fun sp pos =>
    let base := cellAtD denseWf pos scratchDefaultCell
    let base := if fromMatrix = .mJumps then
        { base with prevPos := pos, fromMatrix := fromMatrix } else base
    let newCell : Cell :=
      { base with
        diag := base.diag + shiftFactor
        offset := base.offset + offsetIncrease
        editOp := edit }
    let newCol := newCell.offset + newCell.diag
    if newCell.offset ≤ m ∧ newCol ≤ upperBound then
      sp.accessWrite newCell.diag newCell
    else sp) sp

/-- `TheseusAlignerImpl::sparsify_indel_data` (lines 223-256): like the M
variant but `prev_pos` and `from_matrix` are copied unchanged from the source
cell ("Vertex_id and previous matrix are the same as before"). -/
def sparsify_indel_data (denseWf : List Cell) (offsetIncrease shiftFactor : Int)
    (cellsRange : RangeT) (m upperBound : Int) (edit : EditT)
    (sp : ScratchPad) : ScratchPad :=
  (List.range (cellsRange.end_ - cellsRange.start).toNat).foldl (fun sp l =>
    let idx : Int := cellsRange.start + l
    let base := cellAtD denseWf idx scratchDefaultCell
    let newCell : Cell :=
      { base with
        diag := base.diag + shiftFactor
        offset := base.offset + offsetIncrease
        editOp := edit }
    let newCol := newCell.offset + newCell.diag
    if newCell.offset ≤ m ∧ newCol ≤ upperBound then
      sp.accessWrite newCell.diag newCell
    else sp) sp

def charAtD (l : List Char) (i : Int) : Char :=
  if i < 0 then ' ' else l.getD i.toNat ' '

def lcpGo (seq1 seq2 : List Char) : Nat → Int → Int → Int × Int
  | 0, offset, j => (offset, j)
  | n + 1, offset, j =>
    if offset < (seq1.length : Int) ∧ j < (seq2.length : Int) ∧
        charAtD seq1 offset = charAtD seq2 j then
      lcpGo seq1 seq2 n (offset + 1) (j + 1)
    else (offset, j)

/-- `TheseusAlignerImpl::LCP` (lines 472-484): advance `offset` and `j` while
both are in bounds and the characters agree.  The loop runs at most
`|seq_1|` times from any non-negative start, so the fuel
`|seq_1| + |seq_2| + 1` never runs out in a real call. -/
def LCP (seq1 seq2 : List Char) (offset j : Int) : Int × Int :=
  lcpGo seq1 seq2 (seq1.length + seq2.length + 1) offset j

/-- `TheseusAlignerImpl::check_end_condition` (lines 488-501), both modes. -/
def check_end_condition (st : AlignerState) (currData : Cell) (j : Int)
    (v : Int) : AlignerState :=
  let jEnd := ((st.graph.vertexAt v).value.length : Int)
  if ¬st.isMsa ∧ currData.offset = seqLen st then
    { st with endFlag := true, startPos := currData }
  else if st.isMsa ∧ currData.offset = seqLen st ∧ v = st.endVertex ∧ j = jEnd then
    { st with endFlag := true, startPos := currData }
  else st

/-- Location of a cell mutated in place through a reference into a
BeyondScope buffer (`extend_diagonal`'s `curr_cell` / `prev_cell` arguments
alias the same buffer element at every call site). -/
inductive BufLoc where
  | mWfAt (idx : Nat)
  | mJumpsAt (idx : Nat)
deriving DecidableEq, Repr

def readLoc (st : AlignerState) : BufLoc → Cell
  | .mWfAt i => st.beyond.mWf.getD i scratchDefaultCell
  | .mJumpsAt i => st.beyond.mJumpsWf.getD i scratchDefaultCell

def writeLoc (st : AlignerState) : BufLoc → Cell → AlignerState
  | .mWfAt i, c =>
    { st with beyond := { st.beyond with mWf := st.beyond.mWf.set i c } }
  | .mJumpsAt i, c =>
    { st with beyond := { st.beyond with mJumpsWf := st.beyond.mJumpsWf.set i c } }

/-- `TheseusAlignerImpl::store_I_jump` (lines 420-445, the three-argument
definition the translation unit contains): invalidate the jumping diagonal in
I, then for every out-edge push an I-jumps cell — whose `prev_pos` and
`from_matrix` are copied from `prev_cell`, the `new_cell.prev_pos = prev_pos`
line being commented out in the source — into `scope.i_jumps_wf(score)` and
record its position. -/
def store_I_jump (st : AlignerState) (v : Int) (prevCell : Cell) : AlignerState :=
  let vd0 := st.vdata.invalidate_i_jump st.penalties
    (st.vdata.get_id prevCell.vertexId) prevCell.diag
  let st := { st with vdata := vd0 }
  let posScore := (st.vdata.getPos st.score).toNat
  let newDiag := -prevCell.offset
  (st.graph.vertexAt v).out_edges.foldl (fun st e =>
    let newCell : Cell :=
      { prevCell with
        vertexId := e.to_vertex
        diag := newDiag + e.overlap }
    let st := { st with vdata := st.vdata.activate_vertex newCell.vertexId }
    if validDiagonal (st.vdata.getVertexData newCell.vertexId).iInvalid newCell.diag then
      let posNewCell := ((st.scope.getSlot st.score).iJumpsWf.length : Int)
      let slot := st.scope.getSlot st.score
      let sc0 := st.scope.setSlot st.score
        { slot with iJumpsWf := slot.iJumpsWf ++ [newCell] }
      let st := { st with scope := sc0 }
      { st with vdata := st.vdata.modifyVertexData newCell.vertexId (fun vdata =>
          { vdata with iJumpsPositions := vdata.iJumpsPositions.set posScore ((vdata.iJumpsPositions.getD posScore []) ++ [posNewCell]) }) }
    else st) st

mutual

/-- `TheseusAlignerImpl::extend_diagonal` (lines 505-524): LCP-extend the cell
in place, check the end condition, and — when the extension reaches the right
boundary of a vertex with out-edges — store an M-jump from the updated cell.
All functions of this mutual block consume one unit of fuel per call; a
`none` result means the fuel ran out (the C++ recursion depth is bounded by
the jump structure of the run being modelled). -/
def extend_diagonal : Nat → Int → BufLoc → Int → MatrixT → AlignerState →
    Option AlignerState
  | 0, _, _, _, _, _ => none
  | fuel + 1, v, loc, prevPos, fromMatrix, st =>
    let currV := st.graph.vertexAt v
    let cell := readLoc st loc
    let pr := LCP st.seq currV.value cell.offset (cell.diag + cell.offset)
    let cellU := { cell with offset := pr.1 }
    let j := pr.2
    let st := writeLoc st loc cellU
    let st := check_end_condition st cellU j v
    if j = (currV.value.length : Int) ∧ cellU.offset ≤ seqLen st ∧
        currV.out_edges ≠ [] then
      store_M_jump fuel v cellU prevPos fromMatrix st
    else some st

/-- `TheseusAlignerImpl::store_M_jump` (lines 386-416): invalidate the jumping
diagonal in M, then walk the out-edges. -/
def store_M_jump : Nat → Int → Cell → Int → MatrixT → AlignerState →
    Option AlignerState
  | 0, _, _, _, _, _ => none
  | fuel + 1, v, prevCell, prevPos, fromMatrix, st =>
    let vd0 := st.vdata.invalidate_m_jump st.penalties
      (st.vdata.get_id prevCell.vertexId) prevCell.diag
    let st := { st with vdata := vd0 }
    let posScore := (st.vdata.getPos st.score).toNat
    let newDiag := -prevCell.offset
    let newCellBase : Cell :=
      { prevCell with
        fromMatrix := fromMatrix
        prevPos := prevPos
        editOp := .m }
    store_M_jump_edges fuel newCellBase newDiag posScore
      (st.graph.vertexAt v).out_edges st

/-- The out-edge loop of `store_M_jump` (lines 401-415): per edge, retarget the
cell, activate the successor, and if its M diagonal is still valid, push the
cell into `beyond.m_jumps_wf`, record its position at the current score's
slot, and recursively extend it. -/
def store_M_jump_edges : Nat → Cell → Int → Nat → List Edge → AlignerState →
    Option AlignerState
  | 0, _, _, _, _, _ => none
  | _ + 1, _, _, _, [], st => some st
  | fuel + 1, base, newDiag, posScore, e :: rest, st =>
    let newCell : Cell :=
      { base with
        vertexId := e.to_vertex
        diag := newDiag + e.overlap }
    let st := { st with vdata := st.vdata.activate_vertex newCell.vertexId }
    if validDiagonal (st.vdata.getVertexData newCell.vertexId).mInvalid newCell.diag then
      let posNewCell := st.beyond.mJumpsWf.length
      let st := { st with beyond := { st.beyond with
        mJumpsWf := st.beyond.mJumpsWf ++ [newCell] } }
      let vd1 := st.vdata.modifyVertexData newCell.vertexId (fun vdata =>
        { vdata with mJumpsPositions := vdata.mJumpsPositions.set posScore ((vdata.mJumpsPositions.getD posScore []) ++ [(posNewCell : Int)]) })
      let st := { st with vdata := vd1 }
      match extend_diagonal fuel newCell.vertexId (.mJumpsAt posNewCell)
          (posNewCell : Int) .mJumps st with
      | none => none
      | some st' => store_M_jump_edges fuel base newDiag posScore rest st'
    else store_M_jump_edges fuel base newDiag posScore rest st

end

/-- `TheseusAlignerImpl::check_and_store_jumps` (lines 449-468): scan the new I
slice; every cell whose column reached the vertex boundary triggers
`store_M_jump` then `store_I_jump`. -/
def check_and_store_jumps (fuel : Nat) (v : Int) (cellRange : RangeT)
    (st : AlignerState) : Option AlignerState :=
  let n := ((st.graph.vertexAt v).value.length : Int)
  (List.range (cellRange.end_ - cellRange.start).toNat).foldlM (fun st l => do
    let cell := cellAtD (st.scope.getSlot st.score).iWf (cellRange.start + l)
      scratchDefaultCell
    if cell.diag + cell.offset = n ∧ cell.offset ≤ seqLen st then do
      let st ← store_M_jump fuel v cell cell.prevPos cell.fromMatrix st
      pure (store_I_jump st v cell)
    else pure st) st

/-- Densify pass shared by the three `next_*` functions: walk the scratchpad's
touched diagonals in insertion order and push the valid ones onto the target
wavefront. -/
def densify (sp : ScratchPad) (invalid : List InvalidData) (wf : List Cell) : List Cell :=
  sp.diags.foldl (fun acc diag =>
    if validDiagonal invalid diag then acc ++ [sp.wf diag] else acc) wf

/-- `TheseusAlignerImpl::next_I` (lines 259-302). -/
def next_I (fuel : Nat) (upperBound : Int) (v : Int) (st : AlignerState) :
    Option AlignerState :=
  let p := st.penalties
  let posPrevM := st.score - (p.gapo + p.gape)
  let posPrevI := st.score - p.gape
  let posPrevMScope := (st.vdata.getPos posPrevM).toNat
  let posPrevIScope := (st.vdata.getPos posPrevI).toNat
  let sp := st.scratchpad
  let sp :=
    if posPrevI ≥ 0 then
      let sp :=
        if ((st.scope.getSlot posPrevI).iPos.length : Int) > st.vdata.get_id v then
          sparsify_indel_data (st.scope.getSlot posPrevI).iWf 0 1
            (rangeAtD (st.scope.getSlot posPrevI).iPos (st.vdata.get_id v))
            (seqLen st) upperBound .ins sp
        else sp
      sparsify_jumps_data (st.scope.getSlot posPrevI).iJumpsWf
        ((st.vdata.getVertexData v).iJumpsPositions.getD posPrevIScope []) 0 1
        (seqLen st) upperBound .iJumps .ins sp
    else sp
  let sp :=
    if posPrevM ≥ 0 then
      let sp :=
        if ((st.scope.getSlot posPrevM).mPos.length : Int) > st.vdata.get_id v then
          sparsify_M_data st.beyond.mWf 0 1
            (rangeAtD (st.scope.getSlot posPrevM).mPos (st.vdata.get_id v))
            (seqLen st) upperBound .ins sp
        else sp
      sparsify_jumps_data st.beyond.mJumpsWf
        ((st.vdata.getVertexData v).mJumpsPositions.getD posPrevMScope []) 0 1
        (seqLen st) upperBound .mJumps .ins sp
    else sp
  let slot := st.scope.getSlot st.score
  let newStart := (slot.iWf.length : Int)
  let newIWf := densify sp (st.vdata.getVertexData v).iInvalid slot.iWf
  let newRange : RangeT := ⟨newStart, (newIWf.length : Int)⟩
  let sc0 := st.scope.setSlot st.score
    { slot with iWf := newIWf, iPos := slot.iPos ++ [newRange] }
  let st := { st with scratchpad := sp, scope := sc0 }
  if (st.graph.vertexAt v).out_edges ≠ [] then
    check_and_store_jumps fuel v newRange st
  else some st

/-- `TheseusAlignerImpl::next_D` (lines 306-340). -/
def next_D (upperBound : Int) (v : Int) (st : AlignerState) : AlignerState :=
  let p := st.penalties
  let posPrevM := st.score - (p.gapo + p.gape)
  let posPrevD := st.score - p.gape
  let posPrevMScope := (st.vdata.getPos posPrevM).toNat
  let sp := st.scratchpad
  let sp :=
    if posPrevD ≥ 0 ∧ ((st.scope.getSlot posPrevD).dPos.length : Int) > st.vdata.get_id v then
      sparsify_indel_data (st.scope.getSlot posPrevD).dWf 1 (-1)
        (rangeAtD (st.scope.getSlot posPrevD).dPos (st.vdata.get_id v))
        (seqLen st) upperBound .del sp
    else sp
  let sp :=
    if posPrevM ≥ 0 then
      let sp :=
        if ((st.scope.getSlot posPrevM).mPos.length : Int) > st.vdata.get_id v then
          sparsify_M_data st.beyond.mWf 1 (-1)
            (rangeAtD (st.scope.getSlot posPrevM).mPos (st.vdata.get_id v))
            (seqLen st) upperBound .del sp
        else sp
      sparsify_jumps_data st.beyond.mJumpsWf
        ((st.vdata.getVertexData v).mJumpsPositions.getD posPrevMScope []) 1 (-1)
        (seqLen st) upperBound .mJumps .del sp
    else sp
  let slot := st.scope.getSlot st.score
  let newStart := (slot.dWf.length : Int)
  let newDWf := densify sp (st.vdata.getVertexData v).dInvalid slot.dWf
  let newRange : RangeT := ⟨newStart, (newDWf.length : Int)⟩
  let sc0 := st.scope.setSlot st.score
    { slot with dWf := newDWf, dPos := slot.dPos ++ [newRange] }
  { st with scratchpad := sp, scope := sc0 }

/-- `TheseusAlignerImpl::next_M` (lines 344-381); the densified cells go into
the persistent `beyond.m_wf`, the range into `scope.m_pos(score)`. -/
def next_M (upperBound : Int) (v : Int) (st : AlignerState) : AlignerState :=
  let p := st.penalties
  let posPrevM := st.score - p.mism
  let posPrevD := st.score
  let posPrevI := st.score
  let posPrevMScope := (st.vdata.getPos posPrevM).toNat
  let sp := st.scratchpad
  let sp :=
    if ((st.scope.getSlot posPrevD).dPos.length : Int) > st.vdata.get_id v then
      sparsify_indel_data (st.scope.getSlot posPrevD).dWf 0 0
        (rangeAtD (st.scope.getSlot posPrevD).dPos (st.vdata.get_id v))
        (seqLen st) upperBound .del sp
    else sp
  let sp :=
    if ((st.scope.getSlot posPrevI).iPos.length : Int) > st.vdata.get_id v then
      sparsify_indel_data (st.scope.getSlot posPrevI).iWf 0 0
        (rangeAtD (st.scope.getSlot posPrevI).iPos (st.vdata.get_id v))
        (seqLen st) upperBound .ins sp
    else sp
  let sp :=
    if posPrevM ≥ 0 then
      let sp :=
        if ((st.scope.getSlot posPrevM).mPos.length : Int) > st.vdata.get_id v then
          sparsify_M_data st.beyond.mWf 1 0
            (rangeAtD (st.scope.getSlot posPrevM).mPos (st.vdata.get_id v))
            (seqLen st) upperBound .m sp
        else sp
      sparsify_jumps_data st.beyond.mJumpsWf
        ((st.vdata.getVertexData v).mJumpsPositions.getD posPrevMScope []) 1 0
        (seqLen st) upperBound .mJumps .m sp
    else sp
  let newStart := (st.beyond.mWf.length : Int)
  let newMWf := densify sp (st.vdata.getVertexData v).mInvalid st.beyond.mWf
  let newRange : RangeT := ⟨newStart, (newMWf.length : Int)⟩
  let slot := st.scope.getSlot st.score
  let sc0 := st.scope.setSlot st.score { slot with mPos := slot.mPos ++ [newRange] }
  { st with
    scratchpad := sp
    scope := sc0
    beyond := { st.beyond with mWf := newMWf } }

/-- `TheseusAlignerImpl::process_vertex` (lines 66-84): the three `next_*`
passes with scratchpad resets, then the matching extension of every cell in
the new M slice of `v`. -/
def process_vertex (fuel : Nat) (v : Int) (st : AlignerState) : Option AlignerState := do
  let upperBound := ((st.graph.vertexAt v).value.length : Int)
  let st ← next_I fuel upperBound v st
  let st := { st with scratchpad := st.scratchpad.reset }
  let st := next_D upperBound v st
  let st := { st with scratchpad := st.scratchpad.reset }
  let st := next_M upperBound v st
  let st := { st with scratchpad := st.scratchpad.reset }
  let vPos := st.vdata.get_id v
  let cellsRange := rangeAtD (st.scope.getSlot st.score).mPos vPos
  (List.range (cellsRange.end_ - cellsRange.start).toNat).foldlM (fun st l =>
    let idx := cellsRange.start + l
    extend_diagonal fuel v (.mWfAt idx.toNat) idx .m st) st

/-- `TheseusAlignerImpl::compute_new_wave` (lines 87-100): expand and compact
the invalid segments, then process the active vertices — the count is
snapshotted before the loop, so vertices activated by jumps during this score
are not processed until the next one. -/
def compute_new_wave (fuel : Nat) (st : AlignerState) : Option AlignerState :=
  let st := { st with vdata := st.vdata.expand st.penalties }
  let st := { st with vdata := st.vdata.compact st.penalties }
  let numActive := st.vdata.activeVertices.length
  (List.range numActive).foldlM (fun st l =>
    let v := (st.vdata.activeVertices.getD l defaultVertexData).vertexId
    process_vertex fuel v st) st

/-- The `while (!_end)` loop of `TheseusAlignerImpl::align` (lines 118-130):
at score 0 the seed cell in `m_jumps_wf[0]` is extension-matched first; then
`compute_new_wave`, the score increment, and the per-score resets. -/
def alignLoop (fuel : Nat) : Nat → AlignerState → Option AlignerState
  | 0, _ => none
  | n + 1, st =>
    if st.endFlag then some st
    else do
      let st ←
        if st.score = 0 then
          extend_diagonal fuel 0 (.mJumpsAt 0) 0 .mJumps st
        else pure st
      let st ← compute_new_wave fuel st
      let st := { st with score := st.score + 1 }
      let st := { st with scope := st.scope.new_score st.score }
      let st := { st with vdata := st.vdata.new_score st.score }
      alignLoop fuel n st

/-- The state after the per-query initialization of
`TheseusAlignerImpl::align(seq, start_node, start_offset)` (lines 102-116):
the constructor state (`n_scores = max(gapo+gape, gapo+gape, mism) + 1`,
scratchpad over `[-1024, 1024]`), the three `new_alignment()` resets, then
`new_alignment(0)` (lines 29-62) — note `align` passes the literal `0`, and
the seed cell is built with only `offset`, `vertex_id` and `diag` assigned
(`Cell init_condition;` leaves `prev_pos`, `from_matrix` and `edit_op`
uninitialized; they are the parameters `uPrev`, `uFrom`, `uEdit`) — and
finally `_score = 0; _end_vertex = 2; _end = false`.  `startNode` and
`startOffset` are accepted (the public signature has them) but ignored by the
implementation, exactly as in the source.  `_start_pos` is default-modelled;
it is only read after the end condition assigns it.  The embedding covers the
anchored configuration (`msa = false`); only the MSA branch of `align` (lines
135-139) additionally backtraces and updates the POA graph. -/
def alignInit (p : Penalties) (g : Graph) (seq : List Char)
    (startNode startOffset : Int) (uPrev : Int) (uFrom : MatrixT)
    (uEdit : EditT) : AlignerState :=
  let nscores := ((max (max (p.gapo + p.gape) (p.gapo + p.gape)) p.mism) + 1).toNat
  let st : AlignerState :=
    { score := 0
      penalties := p
      graph := g
      isMsa := false
      endFlag := false
      endVertex := 0
      startPos := scratchDefaultCell
      scratchpad := ScratchPad.mk0 (-1024) 1024
      scope := ⟨nscores, List.replicate nscores emptySlot⟩
      beyond := ⟨[], []⟩
      vdata := ⟨nscores, [], []⟩
      seq := seq }
  let st :=
    { st with
      scope := st.scope.new_alignment
      beyond := ⟨[], []⟩
      vdata := st.vdata.new_alignment }
  let maxDiag := g.vertices.foldl (fun acc vtx => max acc (vtx.value.length : Int)) 0
  let minDiag := -(seq.length : Int)
  let st :=
    if st.scratchpad.maxDiag < maxDiag ∨ st.scratchpad.minDiag > minDiag then
      { st with scratchpad := ScratchPad.mk0 minDiag maxDiag }
    else st
  let st := { st with scope := st.scope.new_score st.score }
  let seed : Cell := ⟨uPrev, 0, 0, 0, uFrom, uEdit⟩
  let st := { st with beyond := { st.beyond with
    mJumpsWf := st.beyond.mJumpsWf ++ [seed] } }
  let startVtx : Int := 0
  let st := { st with vdata := st.vdata.activate_vertex startVtx }
  let vd1 := st.vdata.modifyVertexData startVtx (fun vdata =>
    { vdata with mJumpsPositions :=
        vdata.mJumpsPositions.set 0 ((vdata.mJumpsPositions.getD 0 []) ++ [0]) })
  let st := { st with vdata := vd1 }
  { st with score := 0, endVertex := 2, endFlag := false }

/-- `TheseusAlignerImpl::align` in the anchored configuration: run the score
loop, then `_score -= 1; _alignment.score = _score;`.  The returned
`Alignment` carries the `edit_op` and `path` vectors cleared by
`new_alignment` — no wave-computation function writes `_alignment`, and
`backtrace` runs only in MSA mode — and the terminal internal score.
`compute_affine_gap_score` is never called inside `align`. -/
def alignImpl (p : Penalties) (g : Graph) (seq : List Char)
    (startNode startOffset : Int) (uPrev : Int) (uFrom : MatrixT)
    (uEdit : EditT) (fuel loopFuel : Nat) : Option (List Char × List Int × Int) :=
  let st := alignInit p g seq startNode startOffset uPrev uFrom uEdit
  match alignLoop fuel loopFuel st with
  | none => none
  | some stF => some ([], [], stF.score - 1)


/-- The per-score body of the `while (!_end)` loop of `align` (the `_score == 0`
seed extension, `compute_new_wave`, the score increment and the per-score
resets), used to step the concrete runs one score at a time. -/
def alignIter (fuel : Nat) (st : AlignerState) : Option AlignerState := do
  let st ←
    if st.score = 0 then
      extend_diagonal fuel 0 (.mJumpsAt 0) 0 .mJumps st
    else pure st
  let st ← compute_new_wave fuel st
  let st := { st with score := st.score + 1 }
  let st := { st with scope := st.scope.new_score st.score }
  let st := { st with vdata := st.vdata.new_score st.score }
  pure st

theorem alignLoop_succ (fuel n : Nat) (st : AlignerState) (h : st.endFlag = false) :
    alignLoop fuel (n + 1) st = (alignIter fuel st).bind (alignLoop fuel n) := by
  rw [alignLoop, alignIter, h]
  simp only [Bool.false_eq_true, if_false]
  split <;> simp [Option.bind_assoc]

theorem alignLoop_stop (fuel n : Nat) (st : AlignerState) (h : st.endFlag = true) :
    alignLoop fuel (n + 1) st = some st := by
  rw [alignLoop, h]
  simp

/-- The penalties of the concrete example run: affine, `match = 0`,
`mism = 1`, `gapo = 3`, `gape = 1`. -/
def exPen : Penalties := Penalties.mkAffine 0 1 3 1

/-- The graph of the concrete example run: one vertex labelled `"AA"`. -/
def exGraph : Graph := ⟨[⟨[], ['A', 'A']⟩]⟩

/-- The query of the concrete example run. -/
def exSeq : List Char := ['A', 'C']

/-- The example state after per-query initialization. -/
def exSt0 : AlignerState := alignInit exPen exGraph exSeq 0 0 (-1) .mJumps .noneE

/-- The example state after the score-0 wave. -/
def exSt1 : AlignerState :=
  { score := 1, penalties := { type_ := Theseus.PenaltyType.affine, match_ := 0, mismatch_ := 1, gapo_ := 3, gape_ := 1, gapo2_ := 0, gape2_ := 0 }, graph := { vertices := [{ out_edges := [], value := ['A', 'A'] }] }, isMsa := false, endFlag := false, endVertex := 2, startPos := { prevPos := -1, vertexId := -1, offset := -1, diag := -1, fromMatrix := Theseus.MatrixT.noneM, editOp := Theseus.EditT.noneE }, scratchpad := { minDiag := -1024, maxDiag := 1024, cells := [], diags := [] }, scope := { nscores := 5, slots := [{ iWf := [], dWf := [], iJumpsWf := [], mPos := [{ start := 0, end_ := 0 }], iPos := [{ start := 0, end_ := 0 }], dPos := [{ start := 0, end_ := 0 }] }, { iWf := [], dWf := [], iJumpsWf := [], mPos := [], iPos := [], dPos := [] }, { iWf := [], dWf := [], iJumpsWf := [], mPos := [], iPos := [], dPos := [] }, { iWf := [], dWf := [], iJumpsWf := [], mPos := [], iPos := [], dPos := [] }, { iWf := [], dWf := [], iJumpsWf := [], mPos := [], iPos := [], dPos := [] }] }, beyond := { mWf := [], mJumpsWf := [{ prevPos := -1, vertexId := 0, offset := 1, diag := 0, fromMatrix := Theseus.MatrixT.mJumps, editOp := Theseus.EditT.noneE }] }, vdata := { nscores := 5, activeVertices := [{ vertexId := 0, mInvalid := [], iInvalid := [], dInvalid := [], mJumpsPositions := [[0], [], [], [], []], iJumpsPositions := [[], [], [], [], []] }], vertexToIdx := [(0, 0)] }, seq := ['A', 'C'] }

/-- The example state after the score-1 wave, where the end condition fired. -/
def exSt2 : AlignerState :=
  { score := 2, penalties := { type_ := Theseus.PenaltyType.affine, match_ := 0, mismatch_ := 1, gapo_ := 3, gape_ := 1, gapo2_ := 0, gape2_ := 0 }, graph := { vertices := [{ out_edges := [], value := ['A', 'A'] }] }, isMsa := false, endFlag := true, endVertex := 2, startPos := { prevPos := 0, vertexId := 0, offset := 2, diag := 0, fromMatrix := Theseus.MatrixT.mJumps, editOp := Theseus.EditT.m }, scratchpad := { minDiag := -1024, maxDiag := 1024, cells := [(0, { prevPos := 0, vertexId := 0, offset := -1, diag := 0, fromMatrix := Theseus.MatrixT.mJumps, editOp := Theseus.EditT.m })], diags := [] }, scope := { nscores := 5, slots := [{ iWf := [], dWf := [], iJumpsWf := [], mPos := [{ start := 0, end_ := 0 }], iPos := [{ start := 0, end_ := 0 }], dPos := [{ start := 0, end_ := 0 }] }, { iWf := [], dWf := [], iJumpsWf := [], mPos := [{ start := 0, end_ := 1 }], iPos := [{ start := 0, end_ := 0 }], dPos := [{ start := 0, end_ := 0 }] }, { iWf := [], dWf := [], iJumpsWf := [], mPos := [], iPos := [], dPos := [] }, { iWf := [], dWf := [], iJumpsWf := [], mPos := [], iPos := [], dPos := [] }, { iWf := [], dWf := [], iJumpsWf := [], mPos := [], iPos := [], dPos := [] }] }, beyond := { mWf := [{ prevPos := 0, vertexId := 0, offset := 2, diag := 0, fromMatrix := Theseus.MatrixT.mJumps, editOp := Theseus.EditT.m }], mJumpsWf := [{ prevPos := -1, vertexId := 0, offset := 1, diag := 0, fromMatrix := Theseus.MatrixT.mJumps, editOp := Theseus.EditT.noneE }] }, vdata := { nscores := 5, activeVertices := [{ vertexId := 0, mInvalid := [], iInvalid := [], dInvalid := [], mJumpsPositions := [[0], [], [], [], []], iJumpsPositions := [[], [], [], [], []] }], vertexToIdx := [(0, 0)] }, seq := ['A', 'C'] }


def pA : AlignerState :=
  { score := 1, penalties := { type_ := Theseus.PenaltyType.affine, match_ := 0, mismatch_ := 1, gapo_ := 3, gape_ := 1, gapo2_ := 0, gape2_ := 0 }, graph := { vertices := [{ out_edges := [], value := ['A', 'A'] }] }, isMsa := false, endFlag := false, endVertex := 2, startPos := { prevPos := -1, vertexId := -1, offset := -1, diag := -1, fromMatrix := Theseus.MatrixT.noneM, editOp := Theseus.EditT.noneE }, scratchpad := { minDiag := -1024, maxDiag := 1024, cells := [], diags := [] }, scope := { nscores := 5, slots := [{ iWf := [], dWf := [], iJumpsWf := [], mPos := [{ start := 0, end_ := 0 }], iPos := [{ start := 0, end_ := 0 }], dPos := [{ start := 0, end_ := 0 }] }, { iWf := [], dWf := [], iJumpsWf := [], mPos := [], iPos := [], dPos := [] }, { iWf := [], dWf := [], iJumpsWf := [], mPos := [], iPos := [], dPos := [] }, { iWf := [], dWf := [], iJumpsWf := [], mPos := [], iPos := [], dPos := [] }, { iWf := [], dWf := [], iJumpsWf := [], mPos := [], iPos := [], dPos := [] }] }, beyond := { mWf := [], mJumpsWf := [{ prevPos := -1, vertexId := 0, offset := 1, diag := 0, fromMatrix := Theseus.MatrixT.mJumps, editOp := Theseus.EditT.noneE }] }, vdata := { nscores := 5, activeVertices := [{ vertexId := 0, mInvalid := [], iInvalid := [], dInvalid := [], mJumpsPositions := [[0], [], [], [], []], iJumpsPositions := [[], [], [], [], []] }], vertexToIdx := [(0, 0)] }, seq := ['A', 'C'] }

def pB : AlignerState :=
  { score := 1, penalties := { type_ := Theseus.PenaltyType.affine, match_ := 0, mismatch_ := 1, gapo_ := 3, gape_ := 1, gapo2_ := 0, gape2_ := 0 }, graph := { vertices := [{ out_edges := [], value := ['A', 'A'] }] }, isMsa := false, endFlag := false, endVertex := 2, startPos := { prevPos := -1, vertexId := -1, offset := -1, diag := -1, fromMatrix := Theseus.MatrixT.noneM, editOp := Theseus.EditT.noneE }, scratchpad := { minDiag := -1024, maxDiag := 1024, cells := [], diags := [] }, scope := { nscores := 5, slots := [{ iWf := [], dWf := [], iJumpsWf := [], mPos := [{ start := 0, end_ := 0 }], iPos := [{ start := 0, end_ := 0 }], dPos := [{ start := 0, end_ := 0 }] }, { iWf := [], dWf := [], iJumpsWf := [], mPos := [], iPos := [{ start := 0, end_ := 0 }], dPos := [] }, { iWf := [], dWf := [], iJumpsWf := [], mPos := [], iPos := [], dPos := [] }, { iWf := [], dWf := [], iJumpsWf := [], mPos := [], iPos := [], dPos := [] }, { iWf := [], dWf := [], iJumpsWf := [], mPos := [], iPos := [], dPos := [] }] }, beyond := { mWf := [], mJumpsWf := [{ prevPos := -1, vertexId := 0, offset := 1, diag := 0, fromMatrix := Theseus.MatrixT.mJumps, editOp := Theseus.EditT.noneE }] }, vdata := { nscores := 5, activeVertices := [{ vertexId := 0, mInvalid := [], iInvalid := [], dInvalid := [], mJumpsPositions := [[0], [], [], [], []], iJumpsPositions := [[], [], [], [], []] }], vertexToIdx := [(0, 0)] }, seq := ['A', 'C'] }

theorem hA : ({ exSt1 with vdata := (exSt1.vdata.expand exSt1.penalties).compact exSt1.penalties } : AlignerState) = pA := by decide

theorem hB : next_I 8 ((pA.graph.vertexAt 0).value.length : Int) 0 pA = some pB := by decide

def pC : AlignerState := { pB with scratchpad := pB.scratchpad.reset }

def pD : AlignerState :=
  { score := 1, penalties := { type_ := Theseus.PenaltyType.affine, match_ := 0, mismatch_ := 1, gapo_ := 3, gape_ := 1, gapo2_ := 0, gape2_ := 0 }, graph := { vertices := [{ out_edges := [], value := ['A', 'A'] }] }, isMsa := false, endFlag := false, endVertex := 2, startPos := { prevPos := -1, vertexId := -1, offset := -1, diag := -1, fromMatrix := Theseus.MatrixT.noneM, editOp := Theseus.EditT.noneE }, scratchpad := { minDiag := -1024, maxDiag := 1024, cells := [], diags := [] }, scope := { nscores := 5, slots := [{ iWf := [], dWf := [], iJumpsWf := [], mPos := [{ start := 0, end_ := 0 }], iPos := [{ start := 0, end_ := 0 }], dPos := [{ start := 0, end_ := 0 }] }, { iWf := [], dWf := [], iJumpsWf := [], mPos := [], iPos := [{ start := 0, end_ := 0 }], dPos := [{ start := 0, end_ := 0 }] }, { iWf := [], dWf := [], iJumpsWf := [], mPos := [], iPos := [], dPos := [] }, { iWf := [], dWf := [], iJumpsWf := [], mPos := [], iPos := [], dPos := [] }, { iWf := [], dWf := [], iJumpsWf := [], mPos := [], iPos := [], dPos := [] }] }, beyond := { mWf := [], mJumpsWf := [{ prevPos := -1, vertexId := 0, offset := 1, diag := 0, fromMatrix := Theseus.MatrixT.mJumps, editOp := Theseus.EditT.noneE }] }, vdata := { nscores := 5, activeVertices := [{ vertexId := 0, mInvalid := [], iInvalid := [], dInvalid := [], mJumpsPositions := [[0], [], [], [], []], iJumpsPositions := [[], [], [], [], []] }], vertexToIdx := [(0, 0)] }, seq := ['A', 'C'] }

theorem hD : next_D ((pA.graph.vertexAt 0).value.length : Int) 0 pC = pD := by decide

def pE : AlignerState := { pD with scratchpad := pD.scratchpad.reset }

def pF : AlignerState :=
  { score := 1, penalties := { type_ := Theseus.PenaltyType.affine, match_ := 0, mismatch_ := 1, gapo_ := 3, gape_ := 1, gapo2_ := 0, gape2_ := 0 }, graph := { vertices := [{ out_edges := [], value := ['A', 'A'] }] }, isMsa := false, endFlag := false, endVertex := 2, startPos := { prevPos := -1, vertexId := -1, offset := -1, diag := -1, fromMatrix := Theseus.MatrixT.noneM, editOp := Theseus.EditT.noneE }, scratchpad := { minDiag := -1024, maxDiag := 1024, cells := [(0, { prevPos := 0, vertexId := 0, offset := 2, diag := 0, fromMatrix := Theseus.MatrixT.mJumps, editOp := Theseus.EditT.m })], diags := [0] }, scope := { nscores := 5, slots := [{ iWf := [], dWf := [], iJumpsWf := [], mPos := [{ start := 0, end_ := 0 }], iPos := [{ start := 0, end_ := 0 }], dPos := [{ start := 0, end_ := 0 }] }, { iWf := [], dWf := [], iJumpsWf := [], mPos := [{ start := 0, end_ := 1 }], iPos := [{ start := 0, end_ := 0 }], dPos := [{ start := 0, end_ := 0 }] }, { iWf := [], dWf := [], iJumpsWf := [], mPos := [], iPos := [], dPos := [] }, { iWf := [], dWf := [], iJumpsWf := [], mPos := [], iPos := [], dPos := [] }, { iWf := [], dWf := [], iJumpsWf := [], mPos := [], iPos := [], dPos := [] }] }, beyond := { mWf := [{ prevPos := 0, vertexId := 0, offset := 2, diag := 0, fromMatrix := Theseus.MatrixT.mJumps, editOp := Theseus.EditT.m }], mJumpsWf := [{ prevPos := -1, vertexId := 0, offset := 1, diag := 0, fromMatrix := Theseus.MatrixT.mJumps, editOp := Theseus.EditT.noneE }] }, vdata := { nscores := 5, activeVertices := [{ vertexId := 0, mInvalid := [], iInvalid := [], dInvalid := [], mJumpsPositions := [[0], [], [], [], []], iJumpsPositions := [[], [], [], [], []] }], vertexToIdx := [(0, 0)] }, seq := ['A', 'C'] }

theorem hF : next_M ((pA.graph.vertexAt 0).value.length : Int) 0 pE = pF := by decide

def pG : AlignerState := { pF with scratchpad := pF.scratchpad.reset }

def pGr : RangeT := rangeAtD (pG.scope.getSlot pG.score).mPos (pG.vdata.get_id 0)

def pH : AlignerState :=
  { score := 1, penalties := { type_ := Theseus.PenaltyType.affine, match_ := 0, mismatch_ := 1, gapo_ := 3, gape_ := 1, gapo2_ := 0, gape2_ := 0 }, graph := { vertices := [{ out_edges := [], value := ['A', 'A'] }] }, isMsa := false, endFlag := true, endVertex := 2, startPos := { prevPos := 0, vertexId := 0, offset := 2, diag := 0, fromMatrix := Theseus.MatrixT.mJumps, editOp := Theseus.EditT.m }, scratchpad := { minDiag := -1024, maxDiag := 1024, cells := [(0, { prevPos := 0, vertexId := 0, offset := -1, diag := 0, fromMatrix := Theseus.MatrixT.mJumps, editOp := Theseus.EditT.m })], diags := [] }, scope := { nscores := 5, slots := [{ iWf := [], dWf := [], iJumpsWf := [], mPos := [{ start := 0, end_ := 0 }], iPos := [{ start := 0, end_ := 0 }], dPos := [{ start := 0, end_ := 0 }] }, { iWf := [], dWf := [], iJumpsWf := [], mPos := [{ start := 0, end_ := 1 }], iPos := [{ start := 0, end_ := 0 }], dPos := [{ start := 0, end_ := 0 }] }, { iWf := [], dWf := [], iJumpsWf := [], mPos := [], iPos := [], dPos := [] }, { iWf := [], dWf := [], iJumpsWf := [], mPos := [], iPos := [], dPos := [] }, { iWf := [], dWf := [], iJumpsWf := [], mPos := [], iPos := [], dPos := [] }] }, beyond := { mWf := [{ prevPos := 0, vertexId := 0, offset := 2, diag := 0, fromMatrix := Theseus.MatrixT.mJumps, editOp := Theseus.EditT.m }], mJumpsWf := [{ prevPos := -1, vertexId := 0, offset := 1, diag := 0, fromMatrix := Theseus.MatrixT.mJumps, editOp := Theseus.EditT.noneE }] }, vdata := { nscores := 5, activeVertices := [{ vertexId := 0, mInvalid := [], iInvalid := [], dInvalid := [], mJumpsPositions := [[0], [], [], [], []], iJumpsPositions := [[], [], [], [], []] }], vertexToIdx := [(0, 0)] }, seq := ['A', 'C'] }

theorem hG :
    (List.range ((rangeAtD (pG.scope.getSlot pG.score).mPos (pG.vdata.get_id 0)).end_ -
        (rangeAtD (pG.scope.getSlot pG.score).mPos (pG.vdata.get_id 0)).start).toNat).foldlM
      (fun st l =>
        extend_diagonal 8 0 (BufLoc.mWfAt ((rangeAtD (pG.scope.getSlot pG.score).mPos (pG.vdata.get_id 0)).start + l).toNat)
          ((rangeAtD (pG.scope.getSlot pG.score).mPos (pG.vdata.get_id 0)).start + l) MatrixT.m st) pG
      = some pH := by decide


theorem hCrfl : (⟨pB.score, pB.penalties, pB.graph, pB.isMsa, pB.endFlag, pB.endVertex, pB.startPos, pB.scratchpad.reset, pB.scope, pB.beyond, pB.vdata, pB.seq⟩ : AlignerState) = pC := rfl

theorem hErfl : (⟨pD.score, pD.penalties, pD.graph, pD.isMsa, pD.endFlag, pD.endVertex, pD.startPos, pD.scratchpad.reset, pD.scope, pD.beyond, pD.vdata, pD.seq⟩ : AlignerState) = pE := rfl

theorem hGrfl : (⟨pF.score, pF.penalties, pF.graph, pF.isMsa, pF.endFlag, pF.endVertex, pF.startPos, pF.scratchpad.reset, pF.scope, pF.beyond, pF.vdata, pF.seq⟩ : AlignerState) = pG := rfl

theorem hPV : process_vertex 8 0 pA = some pH := by
  unfold process_vertex
  simp only [hB, Option.pure_def, Option.bind_eq_bind, Option.some_bind]
  rw [hCrfl, hD, hErfl, hF, hGrfl]
  exact hG

theorem hArfl : (⟨exSt1.score, exSt1.penalties, exSt1.graph, exSt1.isMsa, exSt1.endFlag, exSt1.endVertex, exSt1.startPos, exSt1.scratchpad, exSt1.scope, exSt1.beyond, (exSt1.vdata.expand exSt1.penalties).compact exSt1.penalties, exSt1.seq⟩ : AlignerState) = pA := by decide

theorem hCNW : compute_new_wave 8 exSt1 = some pH := by
  unfold compute_new_wave
  simp only [hArfl]
  rw [show ((exSt1.vdata.expand exSt1.penalties).compact exSt1.penalties).activeVertices.length = 1 from by decide,
      show List.range 1 = [0] from by decide]
  simp only [List.foldlM_cons, List.foldlM_nil]
  rw [show (pA.vdata.activeVertices.getD 0 defaultVertexData).vertexId = 0 from by decide]
  rw [hPV]
  simp

theorem exStep2 : alignIter 8 exSt1 = some exSt2 := by
  unfold alignIter
  rw [if_neg (by decide : ¬ (exSt1.score = 0))]
  simp only [Option.pure_def, Option.bind_eq_bind, Option.some_bind]
  rw [hCNW]
  simp only [Option.some_bind]
  decide

theorem exStep1 : alignIter 8 exSt0 = some exSt1 := by decide

theorem exLoop6 : alignLoop 8 6 exSt0 = (alignIter 8 exSt0).bind (alignLoop 8 5) := by
  rw [show (6 : Nat) = 5 + 1 from rfl]
  exact alignLoop_succ 8 5 exSt0 (by decide)

theorem exLoop65 : alignLoop 8 6 exSt0 = alignLoop 8 5 exSt1 := by
  rw [exLoop6, exStep1, Option.some_bind]

theorem exLoop54 : alignLoop 8 5 exSt1 = alignLoop 8 4 exSt2 := by
  rw [show (5 : Nat) = 4 + 1 from rfl, alignLoop_succ 8 4 exSt1 (by decide), exStep2,
    Option.some_bind]

theorem exLoop4 : alignLoop 8 4 exSt2 = some exSt2 := by
  rw [show (4 : Nat) = 3 + 1 from rfl]
  exact alignLoop_stop 8 3 exSt2 (by decide)

theorem exLoop_run : alignLoop 8 6 exSt0 = some exSt2 := by
  rw [exLoop65, exLoop54, exLoop4]

/-- The completed example run of `align`: the anchored call returns the empty
CIGAR and path with score `1` (`_score` reached `2` when the end condition
fired, and `align` subtracts one). -/
theorem alignExample_run :
    alignImpl exPen exGraph exSeq 0 0 (-1) .mJumps .noneE 8 6 = some ([], [], 1) := by
  have hinit : alignInit exPen exGraph exSeq 0 0 (-1) .mJumps .noneE = exSt0 := rfl
  simp only [alignImpl, hinit, exLoop_run]
  decide

/-- C1.  Counterexample to "the score field of the returned Alignment equals
the recomputed CIGAR score": the completed anchored run over the one-vertex
graph "AA" with query "AC" (affine penalties match 0, mism 1, gapo 3, gape 1)
returns the empty CIGAR with score field `1`, while recomputing the score of
that returned CIGAR with the user's original penalties through
`compute_affine_gap_score` yields `0`. -/
theorem align_score_not_recomputed :
    alignImpl exPen exGraph exSeq 0 0 (-1) .mJumps .noneE 8 6 = some ([], [], 1) ∧
    computeAffineGapScore exPen [] = 0 ∧ (0 : Int) ≠ 1 :=
  ⟨alignExample_run, by decide, by decide⟩

/-- C1 (amended).  For every completed anchored (non-MSA) call, `align`
returns the `edit_op` and `path` vectors exactly as `new_alignment` cleared
them — empty — together with the terminal internal score `_score - 1`; no
function of the wave computation or of `align` recomputes the CIGAR score
with `compute_affine_gap_score`. -/
theorem align_returns_internal_score (p : Penalties) (g : Graph) (seq : List Char)
    (startNode startOffset uPrev : Int) (uFrom : MatrixT) (uEdit : EditT)
    (fuel loopFuel : Nat) (res : List Char × List Int × Int)
    (h : alignImpl p g seq startNode startOffset uPrev uFrom uEdit fuel loopFuel = some res) :
    ∃ stF, alignLoop fuel loopFuel
        (alignInit p g seq startNode startOffset uPrev uFrom uEdit) = some stF ∧
      res = ([], [], stF.score - 1) := by
  simp only [alignImpl] at h
  cases hl : alignLoop fuel loopFuel (alignInit p g seq startNode startOffset uPrev uFrom uEdit) with
  | none => rw [hl] at h; exact absurd h (by simp)
  | some stF =>
    rw [hl] at h
    exact ⟨stF, rfl, (Option.some.inj h).symm⟩

/-- Closed witness for `align_returns_internal_score`, discharging its
hypothesis with the concrete completed run. -/
theorem align_returns_internal_score_witness :
    ∃ stF, alignLoop 8 6 (alignInit exPen exGraph exSeq 0 0 (-1) .mJumps .noneE) = some stF ∧
      (([], [], 1) : List Char × List Int × Int) = ([], [], stF.score - 1) :=
  align_returns_internal_score exPen exGraph exSeq 0 0 (-1) .mJumps .noneE 8 6
    ([], [], 1) alignExample_run

/-- C2.  Counterexample to "the seed cell carries vertex = start_node,
diag = start_offset, prev_pos = -1 and from_matrix = MJumps": initializing
with `start_node = 1`, `start_offset = 3` on a two-vertex graph still seeds
vertex `0` / diagonal `0`, and the seed's `prev_pos` / `from_matrix` /
`edit_op` are whatever the uninitialized `Cell init_condition;` happened to
hold (here `7` / `M` / `Ins`). -/
theorem alignInit_seed_counterexample :
    (alignInit exPen ⟨[⟨[], ['A','A']⟩, ⟨[], ['C','C']⟩]⟩ ['A','C'] 1 3 7 .m .ins).beyond.mJumpsWf
      = [⟨7, 0, 0, 0, .m, .ins⟩] ∧
    ((alignInit exPen ⟨[⟨[], ['A','A']⟩, ⟨[], ['C','C']⟩]⟩ ['A','C'] 1 3 7 .m .ins).beyond.mJumpsWf.getD 0 scratchDefaultCell).vertexId ≠ 1 ∧
    ((alignInit exPen ⟨[⟨[], ['A','A']⟩, ⟨[], ['C','C']⟩]⟩ ['A','C'] 1 3 7 .m .ins).beyond.mJumpsWf.getD 0 scratchDefaultCell).diag ≠ 3 ∧
    ((alignInit exPen ⟨[⟨[], ['A','A']⟩, ⟨[], ['C','C']⟩]⟩ ['A','C'] 1 3 7 .m .ins).beyond.mJumpsWf.getD 0 scratchDefaultCell).fromMatrix ≠ MatrixT.mJumps := by
  decide

theorem replicate_set_getD (n : Nat) (hn : 0 < n) (x : List Int) :
    ((List.replicate n ([] : List Int)).set 0 x).getD 0 [] = x := by
  cases n with
  | zero => omega
  | succ m => simp [List.replicate_succ]

/-- C2 (amended).  Per-query initialization pushes exactly one seed cell into
the M-jumps BeyondScope buffer — but always at vertex `0` and diagonal `0`
(the `start_node` / `start_offset` arguments are ignored), with `prev_pos`,
`from_matrix` and `edit_op` passed through from the uninitialized
`Cell init_condition;` — and activates vertex `0`, recording position `0` in
vertex `0`'s score-0 M-jumps list. -/
theorem alignInit_seed (p : Penalties) (g : Graph) (seq : List Char)
    (startNode startOffset uPrev : Int) (uFrom : MatrixT) (uEdit : EditT)
    (hp : 0 ≤ max (max (p.gapo + p.gape) (p.gapo + p.gape)) p.mism) :
    (alignInit p g seq startNode startOffset uPrev uFrom uEdit).beyond.mJumpsWf
        = [⟨uPrev, 0, 0, 0, uFrom, uEdit⟩] ∧
    (alignInit p g seq startNode startOffset uPrev uFrom uEdit).vdata.get_id 0 = 0 ∧
    ((alignInit p g seq startNode startOffset uPrev uFrom uEdit).vdata.getVertexData 0).vertexId = 0 ∧
    ((alignInit p g seq startNode startOffset uPrev uFrom uEdit).vdata.getVertexData 0).mJumpsPositions.getD 0 []
        = [0] := by
  have hpos : 0 < ((max (max (p.gapo + p.gape) (p.gapo + p.gape)) p.mism) + 1).toNat := by omega
  obtain ⟨m, hm⟩ : ∃ m, ((max (max (p.gapo + p.gape) (p.gapo + p.gape)) p.mism) + 1).toNat = m + 1 :=
    ⟨((max (max (p.gapo + p.gape) (p.gapo + p.gape)) p.mism) + 1).toNat - 1, by omega⟩
  unfold alignInit
  simp only [hm]
  split_ifs <;>
    simp [Scope.new_alignment, Scope.new_score, Scope.setSlot, Scope.slotIdx,
      VerticesData.new_alignment, VerticesData.activate_vertex, VerticesData.get_id,
      VerticesData.modifyVertexData, VerticesData.getVertexData, listModify,
      freshVertexData, List.replicate_succ]

/-- Closed witness for `alignInit_seed` at the counterexample input. -/
theorem alignInit_seed_witness :
    (alignInit exPen ⟨[⟨[], ['A','A']⟩, ⟨[], ['C','C']⟩]⟩ ['A','C'] 1 3 7 .m .ins).beyond.mJumpsWf
        = [⟨7, 0, 0, 0, .m, .ins⟩] ∧
    (alignInit exPen ⟨[⟨[], ['A','A']⟩, ⟨[], ['C','C']⟩]⟩ ['A','C'] 1 3 7 .m .ins).vdata.get_id 0 = 0 ∧
    ((alignInit exPen ⟨[⟨[], ['A','A']⟩, ⟨[], ['C','C']⟩]⟩ ['A','C'] 1 3 7 .m .ins).vdata.getVertexData 0).vertexId = 0 ∧
    ((alignInit exPen ⟨[⟨[], ['A','A']⟩, ⟨[], ['C','C']⟩]⟩ ['A','C'] 1 3 7 .m .ins).vdata.getVertexData 0).mJumpsPositions.getD 0 []
        = [0] :=
  alignInit_seed exPen ⟨[⟨[], ['A','A']⟩, ⟨[], ['C','C']⟩]⟩ ['A','C'] 1 3 7 .m .ins (by decide)

/-- One node of the GFA loader (`GfaGraph::GfaNode`, fields the loader uses:
`name` and `seq`; `seq` is empty until an `S` line or the reverse-fill pass
assigns it). -/
structure GfaNode where
  name : List Char
  seq : List Char
deriving DecidableEq, Repr

/-- The loader's state (`gfa_graph.h`): the `name_to_id` map (modelled as an
association list in insertion order — the C++ `unordered_map` is only read
through `find`), the node vector and the edge vector `(from, to, overlap)`. -/
structure GfaState where
  name_to_id : List (List Char × Nat)
  gfa_nodes : List GfaNode
  gfa_edges : List (Nat × Nat × Int)
deriving DecidableEq, Repr

/-- The loader's three exception kinds: `Utils::InvalidGraphException` (the
spec's `InvalidGraph`), and the two exceptions `std::stol` can throw —
`std::invalid_argument` on a string with no leading integer and
`std::out_of_range` on a numeral beyond `long`; neither is caught in
`LoadFromStream`. -/
inductive GfaError where
  | invalidGraph
  | invalidArgument
  | outOfRange
deriving DecidableEq, Repr

/-- `GfaGraph::getNameId(name)` (`gfa_graph.cpp` lines 330-349): look the name
up; if absent, append a fresh node with that name and map the name to the next
index `name_to_id.size()`. -/
def getNameId (st : GfaState) (name : List Char) : GfaState × Nat :=
  match st.name_to_id.find? (fun pr => pr.1 == name) with
  | some pr => (st, pr.2)
  | none =>
    let result := st.name_to_id.length
    ({ st with
        name_to_id := st.name_to_id ++ [(name, result)]
        gfa_nodes := st.gfa_nodes ++ [⟨name, []⟩] }, result)

/-- Whitespace for `operator>>` token extraction (GFA fields are separated by
tabs or spaces; `getline` has already removed the newline). -/
def isGfaSpace (c : Char) : Bool := c == ' ' || c == '\t'

/-- Split a line into the whitespace-separated tokens `sstr >> tok` yields. -/
def tokenizeAux : List Char → List Char × List (List Char)
  | [] => ([], [])
  | c :: rest =>
    let pr := tokenizeAux rest
    if isGfaSpace c then ([], if pr.1 = [] then pr.2 else pr.1 :: pr.2)
    else (c :: pr.1, pr.2)

def tokenize (l : List Char) : List (List Char) :=
  let pr := tokenizeAux l
  if pr.1 = [] then pr.2 else pr.1 :: pr.2

/-- Digit run consumed by `std::stol`: returns the count of digits consumed
and the accumulated value. -/
def stolDigits : List Char → Nat → Int → Nat × Int
  | [], i, acc => (i, acc)
  | c :: rest, i, acc =>
    if c.isDigit then stolDigits rest (i + 1) (10 * acc + ((c.toNat : Int) - 48))
    else (i, acc)

/-- The optional sign `std::stol` accepts before the digits (tokens carry no
leading whitespace): the sign value, the remaining characters and the number
of characters consumed. -/
def stripSign : List Char → Int × List Char × Nat
  | '-' :: r => (-1, r, 1)
  | '+' :: r => (1, r, 1)
  | s => (1, s, 0)

/-- `std::stol(s, &charAfterIndex, 10)`: value and `charAfterIndex`;
`std::invalid_argument` when no digit follows the optional sign, and
`std::out_of_range` when the converted value does not fit the 64-bit `long`
of the LP64 target, i.e. lies outside `[-2^63, 2^63 - 1]`. -/
def stol (s : List Char) : Except GfaError (Int × Nat) :=
  let sg := stripSign s
  let pr := stolDigits sg.2.1 0 0
  if pr.1 = 0 then .error .invalidArgument
  else if sg.1 * pr.2 < -(2 ^ 63) ∨ 2 ^ 63 - 1 < sg.1 * pr.2 then .error .outOfRange
  else .ok (sg.1 * pr.2, sg.2.2 + pr.1)

/-- The implicit `long` → `int` conversion in `overlap = std::stol(...)`
(`gfa_graph.cpp` line 250, `int overlap`): two's-complement wrap to 32 bits,
the behaviour of the LP64 targets this code is built for. -/
def narrowToInt32 (v : Int) : Int :=
  (v + 2 ^ 31) % 2 ^ 32 - 2 ^ 31

/-- The `S`-line branch of `LoadFromStream` (`gfa_graph.cpp` lines 201-219):
register `name + "+"`, reject a `"*"` label with `InvalidGraph`, and store the
sequence.  The `assert`s are no-ops in a release build. -/
def processS (st : GfaState) (toks : List (List Char)) : Except GfaError GfaState :=
  let name := toks.getD 1 [] ++ ['+']
  let dna_seq := toks.getD 2 []
  let pr := getNameId st name
  if dna_seq = ['*'] then .error .invalidGraph
  else
    .ok { pr.1 with
      gfa_nodes := pr.1.gfa_nodes.set pr.2
        { (pr.1.gfa_nodes.getD pr.2 ⟨[], []⟩) with seq := dna_seq } }

/-- The `L`-line branch (`gfa_graph.cpp` lines 220-262): register both
oriented endpoints, reject a `"*"` or missing overlap field with
`InvalidGraph`, run `std::stol` (which throws `std::invalid_argument` when the
field has no leading integer, e.g. `"M"`, and `std::out_of_range` beyond
`long`), narrow the returned `long` into the `int overlap` (line 250), reject
a parse that did not consume exactly the digits of `NM` or a final character
other than `M`, reject a negative (narrowed) overlap, and store the edge. -/
def processL (st : GfaState) (toks : List (List Char)) : Except GfaError GfaState :=
  let fromstr := toks.getD 1 [] ++ toks.getD 2 []
  let tostr := toks.getD 3 [] ++ toks.getD 4 []
  let overlapstr := toks.getD 5 []
  let pr1 := getNameId st fromstr
  let pr2 := getNameId pr1.1 tostr
  if overlapstr = ['*'] then .error .invalidGraph
  else if overlapstr = [] then .error .invalidGraph
  else
    match stol overlapstr with
    | .error e => .error e
    | .ok so =>
      let overlap := narrowToInt32 so.1
      if so.2 ≠ overlapstr.length - 1 ∨ overlapstr.getLast? ≠ some 'M' then
        .error .invalidGraph
      else if overlap < 0 then .error .invalidGraph
      else .ok { pr2.1 with gfa_edges := pr2.1.gfa_edges ++ [(pr1.2, pr2.2, overlap)] }

/-- One `while` iteration of `LoadFromStream` (lines 192-263): skip empty
lines and lines starting with neither `S` nor `L`
(`line.size() == 0 || line[0] != 'S' && line[0] != 'L'`), then run the
matching branch on the extracted tokens. -/
def processLine (st : GfaState) (line : List Char) : Except GfaError GfaState :=
  if line.length = 0 then .ok st
  else if line.headD ' ' ≠ 'S' ∧ line.headD ' ' ≠ 'L' then .ok st
  else if line.headD ' ' = 'S' then processS st (tokenize line)
  else if line.headD ' ' = 'L' then processL st (tokenize line)
  else .ok st

/-- The `while (gfa_file.good())` line loop. -/
def processLines (st : GfaState) : List (List Char) → Except GfaError GfaState
  | [] => .ok st
  | line :: rest =>
    match processLine st line with
    | .error e => .error e
    | .ok st' => processLines st' rest

/-- One iteration of the reverse-fill pass (lines 266-289): a node that still
has no sequence and whose name ends in `'+'` was referenced by an edge but
never declared — `InvalidGraph`; a `'-'`-named one receives the reverse of its
`'+'` counterpart's sequence when that counterpart exists, and is left empty
otherwise. -/
def fillReverseStep (st : GfaState) (i : Nat) : Except GfaError GfaState :=
  let node := st.gfa_nodes.getD i ⟨[], []⟩
  if node.seq.length > 0 then .ok st
  else if node.name.getLast? = some '+' then .error .invalidGraph
  else
    let rev_name := node.name.dropLast ++ ['+']
    match st.name_to_id.find? (fun pr => pr.1 == rev_name) with
    | some pr =>
      .ok { st with
        gfa_nodes := st.gfa_nodes.set i
          { node with seq := ((st.gfa_nodes.getD pr.2 ⟨[], []⟩).seq).reverse } }
    | none => .ok st

def fillReverseGo (st : GfaState) : List Nat → Except GfaError GfaState
  | [] => .ok st
  | i :: rest =>
    match fillReverseStep st i with
    | .error e => .error e
    | .ok st' => fillReverseGo st' rest

def fillReverse (st : GfaState) : Except GfaError GfaState :=
  fillReverseGo st (List.range st.gfa_nodes.length)

/-- The overlap-containment pass (lines 291-303): an overlap not strictly
smaller than both endpoint sequences — including every edge into a node whose
sequence stayed empty — is `InvalidGraph`. -/
def checkOverlapsList (nodes : List GfaNode) : List (Nat × Nat × Int) → Except GfaError Unit
  | [] => .ok ()
  | e :: rest =>
    if ((nodes.getD e.1 ⟨[], []⟩).seq.length : Int) ≤ e.2.2 ∨
        ((nodes.getD e.2.1 ⟨[], []⟩).seq.length : Int) ≤ e.2.2 then
      .error .invalidGraph
    else checkOverlapsList nodes rest

/-- The edge-existence pass (lines 304-315). -/
def checkEdgesExistList (nodes : List GfaNode) : List (Nat × Nat × Int) → Except GfaError Unit
  | [] => .ok ()
  | e :: rest =>
    if e.1 ≥ nodes.length ∨ (nodes.getD e.1 ⟨[], []⟩).seq.length = 0 then
      .error .invalidGraph
    else if e.2.1 ≥ nodes.length ∨ (nodes.getD e.2.1 ⟨[], []⟩).seq.length = 0 then
      .error .invalidGraph
    else checkEdgesExistList nodes rest

/-- `GfaGraph::LoadFromStream` (lines 187-316): the line loop, the
reverse-fill pass, the containment pass, the existence pass. -/
def LoadFromStream (lines : List (List Char)) : Except GfaError GfaState :=
  match processLines ⟨[], [], []⟩ lines with
  | .error e => .error e
  | .ok st =>
    match fillReverse st with
    | .error e => .error e
    | .ok st =>
      match checkOverlapsList st.gfa_nodes st.gfa_edges with
      | .error e => .error e
      | .ok _ =>
        match checkEdgesExistList st.gfa_nodes st.gfa_edges with
        | .error e => .error e
        | .ok _ => .ok st

theorem stol_error_kind (s : List Char) (e : GfaError) (h : stol s = .error e) :
    e = GfaError.invalidArgument ∨ e = GfaError.outOfRange := by
  simp only [stol] at h
  split_ifs at h
  · exact Or.inl (Except.error.inj h).symm
  · exact Or.inr (Except.error.inj h).symm

theorem processS_error (st : GfaState) (toks : List (List Char)) (e : GfaError)
    (h : processS st toks = .error e) : e = GfaError.invalidGraph := by
  simp only [processS] at h
  split_ifs at h
  · exact (Except.error.inj h).symm

theorem processL_error (st : GfaState) (toks : List (List Char)) (e : GfaError)
    (h : processL st toks = .error e) :
    e = GfaError.invalidGraph ∨
      ((e = GfaError.invalidArgument ∨ e = GfaError.outOfRange) ∧
        stol (toks.getD 5 []) = .error e) := by
  simp only [processL] at h
  split_ifs at h with h1 h2
  · exact Or.inl (Except.error.inj h).symm
  · exact Or.inl (Except.error.inj h).symm
  · split at h
    · rename_i e' hst
      obtain rfl : e' = e := Except.error.inj h
      exact Or.inr ⟨stol_error_kind _ _ hst, hst⟩
    · rename_i so hst
      split_ifs at h
      · exact Or.inl (Except.error.inj h).symm
      · exact Or.inl (Except.error.inj h).symm

theorem processLine_error (st : GfaState) (line : List Char) (e : GfaError)
    (h : processLine st line = .error e) :
    e = GfaError.invalidGraph ∨
      ((e = GfaError.invalidArgument ∨ e = GfaError.outOfRange) ∧ line.headD ' ' = 'L' ∧
        stol ((tokenize line).getD 5 []) = .error e) := by
  simp only [processLine] at h
  split_ifs at h with h1 h2 h3 h4
  · exact Or.inl (processS_error _ _ _ h)
  · rcases processL_error _ _ _ h with h' | ⟨ha, hq⟩
    · exact Or.inl h'
    · exact Or.inr ⟨ha, h4, hq⟩

theorem processLines_error : ∀ (lines : List (List Char)) (st : GfaState) (e : GfaError),
    processLines st lines = .error e →
    e = GfaError.invalidGraph ∨
      ((e = GfaError.invalidArgument ∨ e = GfaError.outOfRange) ∧
        ∃ line, line ∈ lines ∧ line.headD ' ' = 'L' ∧
          stol ((tokenize line).getD 5 []) = .error e)
  | [], st, e => fun h => Except.noConfusion h
  | line :: rest, st, e => fun h => by
    simp only [processLines] at h
    split at h
    · rename_i e' heq
      obtain rfl : e' = e := Except.error.inj h
      rcases processLine_error st line e' heq with h' | ⟨ha, hL, hq⟩
      · exact Or.inl h'
      · exact Or.inr ⟨ha, line, List.mem_cons_self _ _, hL, hq⟩
    · rename_i st' heq
      rcases processLines_error rest st' e h with h' | ⟨ha, l, hl, hL, hq⟩
      · exact Or.inl h'
      · exact Or.inr ⟨ha, l, List.mem_cons_of_mem _ hl, hL, hq⟩

theorem fillReverseStep_error (st : GfaState) (i : Nat) (e : GfaError)
    (h : fillReverseStep st i = .error e) : e = GfaError.invalidGraph := by
  simp only [fillReverseStep] at h
  split_ifs at h
  · exact (Except.error.inj h).symm
  · split at h <;> exact Except.noConfusion h

theorem fillReverseGo_error : ∀ (l : List Nat) (st : GfaState) (e : GfaError),
    fillReverseGo st l = .error e → e = GfaError.invalidGraph
  | [], st, e => fun h => Except.noConfusion h
  | i :: rest, st, e => fun h => by
    simp only [fillReverseGo] at h
    split at h
    · rename_i e' heq
      obtain rfl : e' = e := Except.error.inj h
      exact fillReverseStep_error st i e' heq
    · rename_i st' heq
      exact fillReverseGo_error rest st' e h

theorem fillReverse_error (st : GfaState) (e : GfaError)
    (h : fillReverse st = .error e) : e = GfaError.invalidGraph :=
  fillReverseGo_error _ _ _ h

theorem checkOverlapsList_error (nodes : List GfaNode) :
    ∀ (edges : List (Nat × Nat × Int)) (e : GfaError),
      checkOverlapsList nodes edges = .error e → e = GfaError.invalidGraph
  | [], e => fun h => Except.noConfusion h
  | ed :: rest, e => fun h => by
    simp only [checkOverlapsList] at h
    split_ifs at h
    · exact (Except.error.inj h).symm
    · exact checkOverlapsList_error nodes rest e h

theorem checkEdgesExistList_error (nodes : List GfaNode) :
    ∀ (edges : List (Nat × Nat × Int)) (e : GfaError),
      checkEdgesExistList nodes edges = .error e → e = GfaError.invalidGraph
  | [], e => fun h => Except.noConfusion h
  | ed :: rest, e => fun h => by
    simp only [checkEdgesExistList] at h
    split_ifs at h
    · exact (Except.error.inj h).symm
    · exact (Except.error.inj h).symm
    · exact checkEdgesExistList_error nodes rest e h

/-- C8 (amended).  Every failing load raises `InvalidGraph`, except that an
`L` line whose overlap field makes `std::stol` throw — `std::invalid_argument`
when no digit follows the optional sign, `std::out_of_range` when the numeral
exceeds `long` — escapes with that exception, which `LoadFromStream` never
catches: a failure is either `InvalidGraph`, or an uncaught `stol` exception
from the overlap parse of some `L` line of the input.  (Defect-free inputs
load successfully — witnessed concretely in `gfa_overlap_M_counterexample`,
which also shows the `long`-to-`int` narrowing wrapping overlap `2^32` to `0`
and loading — and every defect class of the claim does fail: `"*"` labels and
overlaps, the format and negativity checks, the reverse-fill check and the
containment pass all throw `InvalidGraph`; the divergence from the claim is
the exception type of overlap fields `stol` refuses.) -/
theorem loadFromStream_error_kind (lines : List (List Char)) (e : GfaError)
    (h : LoadFromStream lines = .error e) :
    e = GfaError.invalidGraph ∨
      ((e = GfaError.invalidArgument ∨ e = GfaError.outOfRange) ∧
        ∃ line, line ∈ lines ∧ line.headD ' ' = 'L' ∧
          stol ((tokenize line).getD 5 []) = .error e) := by
  simp only [LoadFromStream] at h
  split at h
  · rename_i e' heq
    obtain rfl : e' = e := Except.error.inj h
    exact processLines_error lines ⟨[], [], []⟩ e' heq
  · rename_i st1 heq
    split at h
    · rename_i e' heq2
      obtain rfl : e' = e := Except.error.inj h
      exact Or.inl (fillReverse_error _ _ heq2)
    · rename_i st2 heq2
      split at h
      · rename_i e' heq3
        obtain rfl : e' = e := Except.error.inj h
        exact Or.inl (checkOverlapsList_error _ _ _ heq3)
      · rename_i u heq3
        split at h
        · rename_i e' heq4
          obtain rfl : e' = e := Except.error.inj h
          exact Or.inl (checkEdgesExistList_error _ _ _ heq4)
        · rename_i u2 heq4
          exact Except.noConfusion h

/-- The three-line GFA input whose link overlap field is `"M"`. -/
def gfaBadLines : List (List Char) :=
  [['S', ' ', 'x', ' ', 'A', 'C'],
   ['S', ' ', 'y', ' ', 'C', 'G'],
   ['L', ' ', 'x', ' ', '+', ' ', 'y', ' ', '+', ' ', 'M']]

/-- The same graph with the well-formed overlap field `"1M"`. -/
def gfaGoodLines : List (List Char) :=
  [['S', ' ', 'x', ' ', 'A', 'C'],
   ['S', ' ', 'y', ' ', 'C', 'G'],
   ['L', ' ', 'x', ' ', '+', ' ', 'y', ' ', '+', ' ', '1', 'M']]

/-- The same graph with overlap field `"9223372036854775808M"` — the numeral
is `2^63`, one past `LONG_MAX`. -/
def gfaHugeLines : List (List Char) :=
  [['S', ' ', 'x', ' ', 'A', 'C'],
   ['S', ' ', 'y', ' ', 'C', 'G'],
   ['L', ' ', 'x', ' ', '+', ' ', 'y', ' ', '+', ' ',
    '9', '2', '2', '3', '3', '7', '2', '0', '3', '6',
    '8', '5', '4', '7', '7', '5', '8', '0', '8', 'M']]

/-- The same graph with overlap field `"4294967296M"` — the numeral is `2^32`,
which the `int overlap` narrowing at `gfa_graph.cpp` line 250 wraps to `0`. -/
def gfaWrapLines : List (List Char) :=
  [['S', ' ', 'x', ' ', 'A', 'C'],
   ['S', ' ', 'y', ' ', 'C', 'G'],
   ['L', ' ', 'x', ' ', '+', ' ', 'y', ' ', '+', ' ',
    '4', '2', '9', '4', '9', '6', '7', '2', '9', '6', 'M']]

/-- C8.  Counterexample to "raises InvalidGraph exactly for the rejected
inputs": the link overlap field `"M"` is not of the form `NM` with `N ≥ 0`
and is rejected — but `std::stol` throws `std::invalid_argument` before the
loader's own format check can throw, so the escaping exception is not
`InvalidGraph`; likewise `"9223372036854775808M"` (beyond `long`) escapes
with `std::out_of_range`.  The graph with overlap `"1M"` loads successfully,
and overlap `"4294967296M"` (`2^32`) narrows to `int` `0` at line 250 and
also loads, with the wrapped overlap stored on the edge. -/
theorem gfa_overlap_M_counterexample :
    LoadFromStream gfaBadLines = .error GfaError.invalidArgument ∧
    GfaError.invalidArgument ≠ GfaError.invalidGraph ∧
    LoadFromStream gfaHugeLines = .error GfaError.outOfRange ∧
    GfaError.outOfRange ≠ GfaError.invalidGraph ∧
    LoadFromStream gfaGoodLines =
      .ok ⟨[(['x', '+'], 0), (['y', '+'], 1)],
           [⟨['x', '+'], ['A', 'C']⟩, ⟨['y', '+'], ['C', 'G']⟩],
           [(0, 1, 1)]⟩ ∧
    LoadFromStream gfaWrapLines =
      .ok ⟨[(['x', '+'], 0), (['y', '+'], 1)],
           [⟨['x', '+'], ['A', 'C']⟩, ⟨['y', '+'], ['C', 'G']⟩],
           [(0, 1, 0)]⟩ :=
  ⟨rfl, by decide, rfl, by decide, rfl, rfl⟩

/-- Closed witness for `loadFromStream_error_kind`, discharging its hypothesis
at the `"M"`-overlap input. -/
theorem loadFromStream_error_kind_witness :
    GfaError.invalidArgument = GfaError.invalidGraph ∨
      ((GfaError.invalidArgument = GfaError.invalidArgument ∨
          GfaError.invalidArgument = GfaError.outOfRange) ∧
        ∃ line, line ∈ gfaBadLines ∧ line.headD ' ' = 'L' ∧
          stol ((tokenize line).getD 5 []) = .error GfaError.invalidArgument) :=
  loadFromStream_error_kind gfaBadLines GfaError.invalidArgument rfl

end Theseus
